import Mathlib

/-!
Verification of the KiCanvas core: the S-expression reverse serializer
(`src/kicad/serializer.ts`) and the viewer interaction engine
(`src/viewers/base/viewer.ts`).  Parts of the repository that the claims
depend on but whose source is not available (tokenizer, parser, bounding
box math, view layer set) are modelled from the specification and marked
as such in their doc comments.
-/

set_option maxRecDepth 10000

/-! ## S-expression values

The tokenizer's `List` type, as consumed by `serializer.ts`, holds
JavaScript strings, numbers, and nested arrays.  Bare atoms and quoted
strings are both JavaScript strings in the parsed tree; numbers are
modelled as integers (the embedding's number type — decimal/exponent
floats are outside the shallow embedding, and every claim below is
insensitive to that restriction). -/

inductive SVal where
  | str : String → SVal
  | num : Int → SVal
  | list : List SVal → SVal

namespace SVal

def isList : SVal → Bool
  | .list _ => true
  | _ => false

end SVal

/-! ## Serializer (`src/kicad/serializer.ts`) -/

/-- The `never_quote` allow-list from `needs_quoting` in `serializer.ts`. -/
def never_quote : List String :=
  ["symbol", "lib_symbols", "property", "at", "effects", "font", "size",
   "justify", "fill", "stroke", "type", "width", "pts", "xy", "polyline",
   "pin", "pin_numbers", "pin_names", "offset", "number", "name", "length",
   "uuid", "lib_id", "unit", "instances", "project", "path", "reference",
   "value", "footprint", "in_bom", "on_board", "dnp", "fields_autoplaced",
   "exclude_from_sim", "embedded_fonts",
   "wire", "junction", "no_connect", "bus_entry", "bus", "label",
   "global_label", "hierarchical_label", "netclass_flag", "text_box",
   "diameter", "color",
   "rectangle", "circle", "arc", "polyline", "text", "start", "end", "mid",
   "center", "radius", "angle",
   "power", "power_in", "power_out",
   "thickness", "bold", "italic",
   "yes", "no", "hide", "left", "right", "center", "top", "bottom", "none",
   "default", "solid", "dashed", "dotted", "background", "outline",
   "filled", "passive", "line", "input", "output", "bidirectional",
   "open_collector", "open_emitter", "tri_state", "unspecified",
   "0", "90", "180", "270"]

/-- The character class `[\s()"]` used by `needs_quoting`; whitespace is
modelled as the four ASCII whitespace characters, consistently with the
tokenizer model below. -/
def special_char (c : Char) : Bool :=
  c = ' ' || c = '\t' || c = '\n' || c = '\r' || c = '(' || c = ')' || c = '"'

/-- `needs_quoting` from `serializer.ts`: quote empty strings, strings with
whitespace/parens/quotes, and everything not on the allow-list. -/
def needs_quoting (s : String) : Bool :=
  if s.length = 0 then true
  else if s.data.any special_char then true
  else if never_quote.contains s then false
  else true

/-- One character of `escape_string`.  The source applies five sequential
global replaces (`\\`, `"`, `\n`, `\r`, `\t`); since each replace targets a
distinct single character and no replacement output contains a target of a
later replace, the composition acts character-wise. -/
def escape_char (c : Char) : List Char :=
  if c = '\\' then ['\\', '\\']
  else if c = '"' then ['\\', '"']
  else if c = '\n' then ['\\', 'n']
  else if c = '\r' then ['\\', 'r']
  else if c = '\t' then ['\\', 't']
  else [c]

/-- Concatenation of the per-character escapes (`List.flatMap escape_char`,
spelled out recursively). -/
def escList : List Char → List Char
  | [] => []
  | c :: cs => escape_char c ++ escList cs

def escape_string (s : String) : String :=
  ⟨escList s.data⟩

/-- Decimal digit characters for rendering numbers (JavaScript
`String(number)` on integral values). -/
def digitChar (d : Nat) : Char := Char.ofNat (48 + d)

def natDigits (n : Nat) : List Char :=
  if h : n < 10 then [digitChar n]
  else natDigits (n / 10) ++ [digitChar (n % 10)]
decreasing_by
  exact Nat.div_lt_self (Nat.lt_of_lt_of_le (by omega) (Nat.le_of_not_lt h)) (by omega)

def numToString (n : Int) : String :=
  if n < 0 then ⟨'-' :: natDigits (-n).toNat⟩ else ⟨natDigits n.toNat⟩

/-- `serialize_atom` / the atom branch of `serialize_value`: quote-and-escape
when `needs_quoting`, otherwise emit the bare text. -/
def serialize_atom_str (s : String) : String :=
  if needs_quoting s then "\"" ++ escape_string s ++ "\"" else s

/-- Serialization of a non-list value (`serialize_atom` in `serializer.ts`). -/
def serialize_atomV : SVal → String
  | .str s => serialize_atom_str s
  | .num n => numToString n
  | .list _ => ""

mutual

/-- `serialize_value` from `serializer.ts` (the unformatted mode). -/
def serialize_value : SVal → String
  | .str s => serialize_atom_str s
  | .num n => numToString n
  | .list xs => "(" ++ serialize_value_sep xs ++ ")"

/-- The `value.map(serialize_value).join(" ")` step. -/
def serialize_value_sep : List SVal → String
  | [] => ""
  | [x] => serialize_value x
  | x :: xs => serialize_value x ++ " " ++ serialize_value_sep xs

end

/-- `"  ".repeat(indent)`. -/
def indentStr (n : Nat) : String :=
  ⟨List.replicate (2 * n) ' '⟩

mutual

/-- `serialize_formatted` from `serializer.ts`: short flat lists on one
line, longer or nested lists broken across lines with 2-space indent. -/
def serialize_formatted : SVal → Nat → String
  | .str s, _ => serialize_atom_str s
  | .num n, _ => numToString n
  | .list xs, ind =>
    match xs with
    | [] => "()"
    | head :: tail =>
      if (head :: tail).length ≤ 3 && !(tail.any SVal.isList) then
        "(" ++ serialize_oneline (head :: tail) ind ++ ")"
      else
        "(" ++ (if head.isList then serialize_formatted head ind
                else serialize_atomV head)
            ++ serialize_formatted_tail tail ind ++ ")"

/-- The single-line branch: `value.map(...).join(" ")`. -/
def serialize_oneline : List SVal → Nat → String
  | [], _ => ""
  | [v], ind => if v.isList then serialize_formatted v ind else serialize_atomV v
  | v :: vs, ind =>
    (if v.isList then serialize_formatted v ind else serialize_atomV v)
      ++ " " ++ serialize_oneline vs ind

/-- The multi-line branch's per-item loop: nested lists on a new indented
line, plain values on the same line. -/
def serialize_formatted_tail : List SVal → Nat → String
  | [], _ => ""
  | v :: vs, ind =>
    (if v.isList then "\n" ++ indentStr ind ++ "  " ++ serialize_formatted v (ind + 1)
     else " " ++ serialize_atomV v)
      ++ serialize_formatted_tail vs ind

end

/-- `list_to_string` from `serializer.ts` (`formatted` defaults to true at
every call site exercised by the claims). -/
def list_to_string (expr : SVal) (formatted : Bool) : String :=
  if formatted then serialize_formatted expr 0 else serialize_value expr

/-! ## Tokenizer and parser

Modelled from the spec: the repository's `tokenizer.ts` and `parser.ts`
are not among the provided sources.  Per spec §4.1: parentheses are
structural tokens; unquoted runs of non-whitespace/non-paren characters
are atoms, classified numeric when they match the numeric grammar;
double-quoted runs are strings honoring the backslash escapes
`\"`, `\\`, `\n`, `\r`, `\t`.  Bare atoms and quoted strings both
materialize as strings in the parsed `List` (the serializer's input type
distinguishes only strings, numbers, and lists). -/

inductive Tok where
  | lp
  | rp
  | strT : String → Tok
  | atomT : String → Tok
  | numT : Int → Tok
deriving DecidableEq

def isWS (c : Char) : Bool :=
  c = ' ' || c = '\t' || c = '\n' || c = '\r'

def isDelim (c : Char) : Bool :=
  isWS c || c = '(' || c = ')' || c = '"'

/-- Modelled from the spec: numeric atom grammar (optional sign, digits;
the embedding's numbers are integers). -/
def isNumericAtom : List Char → Bool
  | [] => false
  | c :: rest =>
    if c = '-' then !rest.isEmpty && rest.all Char.isDigit
    else (c :: rest).all Char.isDigit

def parseDigits (cs : List Char) : Nat :=
  cs.foldl (fun a c => a * 10 + (c.toNat - 48)) 0

/-- Classify a bare atom's text as a number token or a plain atom token. -/
def atomToken : List Char → Tok
  | [] => .atomT ⟨[]⟩
  | c :: rest =>
    if c = '-' then
      if !rest.isEmpty && rest.all Char.isDigit then .numT (-(parseDigits rest : Int))
      else .atomT ⟨c :: rest⟩
    else
      if (c :: rest).all Char.isDigit then .numT (parseDigits (c :: rest))
      else .atomT ⟨c :: rest⟩

/-- The interpretation of one backslash escape (`\"`, `\\`, `\n`, `\r`,
`\t`; any other escaped character stands for itself). -/
def unescape_char (e : Char) : Char :=
  if e = 'n' then '\n' else if e = 'r' then '\r' else if e = 't' then '\t' else e

/-- Modelled from the spec: read a quoted string body up to the closing
quote, honoring backslash escapes; fails on an unterminated string. -/
def readStr : List Char → Option (List Char × List Char)
  | [] => none
  | c :: rest =>
    if c = '"' then some ([], rest)
    else if c = '\\' then
      match rest with
      | [] => none
      | e :: rest' => (readStr rest').map fun p => (unescape_char e :: p.1, p.2)
    else (readStr rest).map fun p => (c :: p.1, p.2)

theorem readStr_length_aux :
    ∀ (n : Nat) (l : List Char), l.length = n →
      ∀ s r, readStr l = some (s, r) → r.length < l.length := by
  intro n
  induction n using Nat.strong_induction_on with
  | _ n ih =>
    intro l hl s r h
    rw [readStr.eq_def] at h
    split at h
    · simp at h
    · rename_i c rest
      split at h
      · simp only [Option.some.injEq, Prod.mk.injEq] at h
        simp [← h.2]
      · split at h
        · split at h
          · simp at h
          · rename_i e rest'
            simp only [Option.map_eq_some'] at h
            obtain ⟨⟨s', r'⟩, hrs, hs⟩ := h
            have := ih rest'.length
              (by simp only [List.length_cons] at hl; omega) rest' rfl s' r' hrs
            rw [Prod.mk.injEq] at hs
            simp only [List.length_cons, ← hs.2]
            omega
        · simp only [Option.map_eq_some'] at h
          obtain ⟨⟨s', r'⟩, hrs, hs⟩ := h
          have := ih rest.length
            (by simp only [List.length_cons] at hl; omega) rest rfl s' r' hrs
          rw [Prod.mk.injEq] at hs
          simp only [List.length_cons, ← hs.2]
          omega

theorem readStr_length (l : List Char) (s r : List Char) :
    readStr l = some (s, r) → r.length < l.length :=
  readStr_length_aux l.length l rfl s r

theorem dropWhile_length_le (p : Char → Bool) :
    ∀ l : List Char, (l.dropWhile p).length ≤ l.length := by
  intro l
  induction l with
  | nil => simp
  | cons c rest ih =>
    rw [List.dropWhile_cons]
    split
    · exact Nat.le_trans ih (Nat.le_succ _)
    · simp

/-- Modelled from the spec: the tokenizer's single forward pass. -/
def tokenize : List Char → Option (List Tok)
  | [] => some []
  | c :: rest =>
    if isWS c then tokenize rest
    else if c = '(' then (tokenize rest).map (.lp :: ·)
    else if c = ')' then (tokenize rest).map (.rp :: ·)
    else if c = '"' then
      match h : readStr rest with
      | none => none
      | some (s, r) => (tokenize r).map (.strT ⟨s⟩ :: ·)
    else
      let a := (c :: rest).takeWhile (fun d => !isDelim d)
      let r := rest.dropWhile (fun d => !isDelim d)
      (tokenize r).map (atomToken a :: ·)
termination_by l => l.length
decreasing_by
  · simp
  · simp
  · simp
  · have := readStr_length _ _ _ h
    simp
    omega
  · simp only [List.length_cons]
    exact Nat.lt_succ_of_le (dropWhile_length_le _ _)

unseal tokenize in
example : tokenize "(wire 5)".data =
    some [.lp, .atomT "wire", .numT 5, .rp] := by decide

/-- Modelled from the spec: the parser stage, consuming the token stream
and materializing the nested `List` structure.  A single forward pass with
an explicit stack of partially built lists; fails on unbalanced
parentheses. -/
def parseRun : List Tok → List SVal → List (List SVal) → Option (List SVal)
  | [], cur, [] => some cur.reverse
  | [], _, _ :: _ => none
  | .lp :: ts, cur, stk => parseRun ts [] (cur :: stk)
  | .rp :: ts, cur, stk =>
    match stk with
    | [] => none
    | prev :: stk' => parseRun ts (.list cur.reverse :: prev) stk'
  | .strT s :: ts, cur, stk => parseRun ts (.str s :: cur) stk
  | .atomT s :: ts, cur, stk => parseRun ts (.str s :: cur) stk
  | .numT n :: ts, cur, stk => parseRun ts (.num n :: cur) stk

/-- Modelled from the spec: parse one whole document (a single top-level
expression) from text. -/
def parse_text (t : String) : Option SVal :=
  match tokenize t.data with
  | none => none
  | some ts =>
    match parseRun ts [] [] with
    | some [e] => some e
    | _ => none

mutual

/-- The token stream that re-tokenizing the serialized form of a value
produces. -/
def toks : SVal → List Tok
  | .str s => if needs_quoting s then [.strT s] else [atomToken s.data]
  | .num n => [.numT n]
  | .list xs => .lp :: (toksList xs ++ [.rp])

def toksList : List SVal → List Tok
  | [] => []
  | x :: xs => toks x ++ toksList xs

end

mutual

/-- A value whose bare-rendered string atoms are never numeric-looking:
exactly the values on which serialization preserves every atom's type.
(The allow-list entries `"0"`, `"90"`, `"180"`, `"270"` are rendered bare
and re-tokenize as numbers.) -/
def Good : SVal → Bool
  | .str s => needs_quoting s || !(isNumericAtom s.data)
  | .num _ => true
  | .list xs => GoodL xs

def GoodL : List SVal → Bool
  | [] => true
  | x :: xs => Good x && GoodL xs

end

/-! ### Digit rendering round-trip -/

theorem digitChar_toNat {m : Nat} (h : m < 10) : (digitChar m).toNat = 48 + m := by
  interval_cases m <;> decide

theorem digitChar_isDigit {m : Nat} (h : m < 10) : (digitChar m).isDigit = true := by
  interval_cases m <;> decide

theorem natDigits_spec (n : Nat) :
    natDigits n ≠ [] ∧ (natDigits n).all Char.isDigit = true ∧
      parseDigits (natDigits n) = n := by
  induction n using natDigits.induct with
  | case1 n h =>
    rw [natDigits]
    simp only [h, dif_pos]
    refine ⟨by simp, by simp [digitChar_isDigit h], ?_⟩
    simp [parseDigits, digitChar_toNat h]
  | case2 n h ih =>
    rw [natDigits, dif_neg h]
    have h10 : n % 10 < 10 := Nat.mod_lt _ (by omega)
    obtain ⟨ih1, ih2, ih3⟩ := ih
    refine ⟨by simp, ?_, ?_⟩
    · simp only [List.all_append, ih2, Bool.true_and, List.all_cons, List.all_nil,
        Bool.and_true]
      exact digitChar_isDigit h10
    · have hstep : parseDigits (natDigits (n / 10) ++ [digitChar (n % 10)])
          = parseDigits (natDigits (n / 10)) * 10 + ((digitChar (n % 10)).toNat - 48) := by
        simp [parseDigits, List.foldl_append]
      rw [hstep, ih3, digitChar_toNat h10]
      omega

theorem digit_not_dash {c : Char} (h : c.isDigit = true) : c ≠ '-' := by
  intro he
  subst he
  simp [Char.isDigit] at h

/-- Re-tokenizing a rendered integer yields the number token back. -/
theorem atomToken_numToString (n : Int) : atomToken (numToString n).data = .numT n := by
  obtain ⟨h1, h2, h3⟩ := natDigits_spec n.toNat
  obtain ⟨h1', h2', h3'⟩ := natDigits_spec (-n).toNat
  by_cases hn : n < 0
  · simp only [numToString, hn, if_pos]
    cases hd : natDigits (-n).toNat with
    | nil => exact absurd hd h1'
    | cons d ds =>
      show atomToken ('-' :: d :: ds) = _
      rw [atomToken]
      simp only [if_pos rfl]
      rw [hd] at h2' h3'
      simp only [List.isEmpty_cons, Bool.not_false, Bool.true_and, h2', if_pos]
      rw [show parseDigits (d :: ds) = (-n).toNat from h3']
      congr 1
      omega
  · simp only [numToString, hn, if_neg]
    cases hd : natDigits n.toNat with
    | nil => exact absurd hd h1
    | cons d ds =>
      show atomToken (d :: ds) = _
      rw [hd] at h2 h3
      rw [atomToken]
      have hdd : d.isDigit = true := by
        simp only [List.all_cons, Bool.and_eq_true] at h2
        exact h2.1
      rw [if_neg (by simpa using digit_not_dash hdd)]
      simp only [h2, if_pos]
      rw [show parseDigits (d :: ds) = n.toNat from h3]
      congr 1
      omega


/-! ### Tokenization of serialized output -/

theorem tokenize_nil : tokenize [] = some [] := by
  rw [tokenize.eq_def]

theorem special_char_eq_isDelim (c : Char) : special_char c = isDelim c := rfl

theorem tokenize_ws_cons {c : Char} (l : List Char) (h : isWS c = true) :
    tokenize (c :: l) = tokenize l := by
  rw [tokenize.eq_def]
  simp only [h, if_true]

theorem tokenize_ws_append {ws : List Char} (l : List Char)
    (h : ∀ c ∈ ws, isWS c = true) : tokenize (ws ++ l) = tokenize l := by
  induction ws with
  | nil => rfl
  | cons c rest ih =>
    rw [List.cons_append, tokenize_ws_cons _ (h c (by simp)), ih]
    intro d hd
    exact h d (by simp [hd])

theorem tokenize_lp (l : List Char) :
    tokenize ('(' :: l) = (tokenize l).map (.lp :: ·) := by
  rw [tokenize.eq_def]
  simp [isWS]

theorem tokenize_rp (l : List Char) :
    tokenize (')' :: l) = (tokenize l).map (.rp :: ·) := by
  rw [tokenize.eq_def]
  simp [isWS]

/-- Whether a character list may legally follow a bare (unquoted) atom:
empty, or starting with a delimiter. -/
def delimOkB : List Char → Bool
  | [] => true
  | c :: _ => isDelim c

theorem takeWhile_all_append {cs l : List Char}
    (hcs : ∀ c ∈ cs, isDelim c = false) (hl : delimOkB l = true) :
    (cs ++ l).takeWhile (fun d => !isDelim d) = cs ∧
      (cs ++ l).dropWhile (fun d => !isDelim d) = l := by
  induction cs with
  | nil =>
    simp only [List.nil_append]
    cases l with
    | nil => simp
    | cons c rest =>
      have : isDelim c = true := hl
      rw [List.takeWhile_cons, List.dropWhile_cons]
      simp [this]
  | cons c cs' ih =>
    have hc : isDelim c = false := hcs c (by simp)
    rw [List.cons_append, List.takeWhile_cons, List.dropWhile_cons]
    simp only [hc, Bool.not_false, if_true]
    have ⟨ih1, ih2⟩ := ih (fun d hd => hcs d (by simp [hd]))
    exact ⟨by rw [ih1], by rw [ih2]⟩

/-- Tokenizing a bare atom followed by a delimiter (or end of input)
yields the atom's token and continues after it. -/
theorem tokenize_atom {cs l : List Char} (hne : cs ≠ [])
    (hcs : ∀ c ∈ cs, isDelim c = false) (hl : delimOkB l = true) :
    tokenize (cs ++ l) = (tokenize l).map (atomToken cs :: ·) := by
  cases cs with
  | nil => exact absurd rfl hne
  | cons c cs' =>
    have hc : isDelim c = false := hcs c (by simp)
    have hcs' : ∀ d ∈ cs', isDelim d = false := fun d hd => hcs d (by simp [hd])
    simp only [isDelim, Bool.or_eq_false_iff, decide_eq_false_iff_not] at hc
    obtain ⟨⟨⟨hWS, hlp⟩, hrp⟩, hq⟩ := hc
    rw [List.cons_append, tokenize.eq_def]
    simp only [hWS, Bool.false_eq_true, if_false, hlp, hrp, hq, if_neg]
    have ⟨ht, hd⟩ := takeWhile_all_append hcs' hl
    have hcd : isDelim c = false := by
      simp [isDelim, hWS, hlp, hrp, hq]
    simp only [List.takeWhile_cons, hcd, Bool.not_false, if_true, ht, hd]

theorem readStr_cons_quote (rest : List Char) :
    readStr ('"' :: rest) = some ([], rest) := by
  rw [readStr.eq_def]
  simp

theorem readStr_cons_esc (e : Char) (rest : List Char) :
    readStr ('\\' :: e :: rest) =
      (readStr rest).map fun p => (unescape_char e :: p.1, p.2) := by
  rw [readStr.eq_def]
  simp

theorem readStr_cons_plain {c : Char} (h2 : ¬c = '"') (h1 : ¬c = '\\')
    (rest : List Char) :
    readStr (c :: rest) = (readStr rest).map fun p => (c :: p.1, p.2) := by
  rw [readStr.eq_def]
  simp [h1, h2]

/-- Reading back an escaped string body: `readStr` undoes `escape_char`. -/
theorem readStr_escape (s : List Char) (l : List Char) :
    readStr (escList s ++ '"' :: l) = some (s, l) := by
  induction s with
  | nil =>
    rw [escList, List.nil_append, readStr_cons_quote]
  | cons c cs ih =>
    rw [escList, List.append_assoc]
    by_cases h1 : c = '\\'
    · subst h1
      rw [show escape_char '\\' = ['\\', '\\'] from rfl]
      rw [List.cons_append, List.cons_append, List.nil_append,
        readStr_cons_esc, ih]
      rfl
    · by_cases h2 : c = '"'
      · subst h2
        rw [show escape_char '"' = ['\\', '"'] from rfl]
        rw [List.cons_append, List.cons_append, List.nil_append,
          readStr_cons_esc, ih]
        rfl
      · by_cases h3 : c = '\n'
        · subst h3
          rw [show escape_char '\n' = ['\\', 'n'] from rfl]
          rw [List.cons_append, List.cons_append, List.nil_append,
            readStr_cons_esc, ih]
          rfl
        · by_cases h4 : c = '\r'
          · subst h4
            rw [show escape_char '\r' = ['\\', 'r'] from rfl]
            rw [List.cons_append, List.cons_append, List.nil_append,
              readStr_cons_esc, ih]
            rfl
          · by_cases h5 : c = '\t'
            · subst h5
              rw [show escape_char '\t' = ['\\', 't'] from rfl]
              rw [List.cons_append, List.cons_append, List.nil_append,
                readStr_cons_esc, ih]
              rfl
            · rw [show escape_char c = [c] by
                simp [escape_char, h1, h2, h3, h4, h5]]
              rw [List.cons_append, List.nil_append,
                readStr_cons_plain h2 h1, ih]
              rfl

/-- Tokenizing a serialized quoted string yields its string token. -/
theorem tokenize_string (s : String) (l : List Char) :
    tokenize ('"' :: ((escape_string s).data ++ '"' :: l)) =
      (tokenize l).map (.strT s :: ·) := by
  rw [tokenize.eq_def]
  simp only [show isWS '"' = false by decide, Bool.false_eq_true, if_false,
    show ('"' = '(') = False by simp, show ('"' = ')') = False by simp, iff_false,
    if_true, show ('"' = '"') = True by simp]
  have hesc : readStr ((escape_string s).data ++ '"' :: l) = some (s.data, l) :=
    readStr_escape s.data l
  split
  · rename_i hnone
    rw [hesc] at hnone
    cases hnone
  · rename_i s' r' hsome
    rw [hesc] at hsome
    injection hsome with hp
    injection hp with hd1 hd2
    subst hd1
    subst hd2
    rfl

/-! ### Atom-level tokenization facts -/

theorem string_length_data (s : String) : s.length = s.data.length := rfl

theorem needs_quoting_false_props {s : String} (h : needs_quoting s = false) :
    s.data ≠ [] ∧ (∀ c ∈ s.data, isDelim c = false) ∧ never_quote.contains s = true := by
  unfold needs_quoting at h
  split_ifs at h with h1 h2 h3
  refine ⟨?_, ?_, h3⟩
  · intro hnil
    exact h1 (by rw [string_length_data, hnil]; rfl)
  · intro c hc
    by_contra hne
    exact h2 (List.any_eq_true.mpr ⟨c, hc, by
      rw [special_char_eq_isDelim]
      cases hd : isDelim c
      · exact absurd hd hne
      · rfl⟩)

theorem isDelim_of_digit {c : Char} (h : c.isDigit = true) : isDelim c = false := by
  cases hD : isDelim c
  · rfl
  · exfalso
    simp only [isDelim, isWS, Bool.or_eq_true, decide_eq_true_eq] at hD
    rcases hD with ((((((hc | hc) | hc) | hc) | hc) | hc) | hc) <;>
      (subst hc; exact absurd h (by decide))

theorem numToString_data_facts (n : Int) :
    (numToString n).data ≠ [] ∧ ∀ c ∈ (numToString n).data, isDelim c = false := by
  obtain ⟨h1, h2, _⟩ := natDigits_spec n.toNat
  obtain ⟨h1', h2', _⟩ := natDigits_spec (-n).toNat
  unfold numToString
  split_ifs with hn
  · refine ⟨by simp, ?_⟩
    intro c hc
    simp only [String.data] at hc
    cases hc with
    | head => decide
    | tail _ hc =>
      exact isDelim_of_digit (by
        rw [List.all_eq_true] at h2'
        exact h2' c hc)
  · refine ⟨by simpa using h1, ?_⟩
    intro c hc
    simp only [String.data] at hc
    exact isDelim_of_digit (by
      rw [List.all_eq_true] at h2
      exact h2 c hc)

/-- Tokenizing a rendered number (followed by a delimiter) yields its
number token. -/
theorem tokenize_num (n : Int) (l : List Char) (hl : delimOkB l = true) :
    tokenize ((numToString n).data ++ l) = (tokenize l).map (.numT n :: ·) := by
  obtain ⟨hne, hchars⟩ := numToString_data_facts n
  rw [tokenize_atom hne hchars hl, atomToken_numToString]

/-- Tokenizing a bare-rendered string atom (followed by a delimiter)
yields its atom token. -/
theorem tokenize_bare_str {s : String} (h : needs_quoting s = false)
    (l : List Char) (hl : delimOkB l = true) :
    tokenize (s.data ++ l) = (tokenize l).map (atomToken s.data :: ·) := by
  obtain ⟨hne, hchars, _⟩ := needs_quoting_false_props h
  exact tokenize_atom hne hchars hl

theorem indentStr_ws (n : Nat) : ∀ c ∈ (indentStr n).data, isWS c = true := by
  intro c hc
  simp only [indentStr, String.data] at hc
  rw [List.eq_of_mem_replicate hc]
  rfl

/-! ### Re-tokenizing serialized values -/

theorem data_lit_q : ("\"" : String).data = ['"'] := rfl

theorem data_lit_sp : (" " : String).data = [' '] := rfl

theorem data_lit_nl : ("\n" : String).data = ['\n'] := rfl

theorem data_lit_two_sp : ("  " : String).data = [' ', ' '] := rfl

theorem data_lit_lp : ("(" : String).data = ['('] := rfl

theorem data_lit_rp : (")" : String).data = [')'] := rfl

theorem toksList_nil : toksList [] = [] := rfl

theorem toksList_cons (x : SVal) (xs : List SVal) :
    toksList (x :: xs) = toks x ++ toksList xs := rfl

theorem fmt_collapse (v : SVal) (ind : Nat) :
    (if v.isList then serialize_formatted v ind else serialize_atomV v)
      = serialize_formatted v ind := by
  cases v <;> rfl

theorem atomV_eq_fmt {v : SVal} (hv : v.isList = false) (ind : Nat) :
    serialize_atomV v = serialize_formatted v ind := by
  cases v with
  | str s => rfl
  | num n => rfl
  | list xs => simp [SVal.isList] at hv

theorem map_append_assoc {α : Type} (o : Option (List α)) (a b : List α) :
    (o.map (b ++ ·)).map (a ++ ·) = o.map ((a ++ b) ++ ·) := by
  cases o <;> simp

theorem map_cons_append {α : Type} (o : Option (List α)) (t : α) (b : List α) :
    (o.map (b ++ ·)).map (t :: ·) = o.map ((t :: b) ++ ·) := by
  cases o <;> simp

theorem map_append_cons {α : Type} (o : Option (List α)) (t : α) (b : List α) :
    (o.map (t :: ·)).map (b ++ ·) = o.map ((b ++ [t]) ++ ·) := by
  cases o <;> simp

/-- The continuation after a tail-loop rendering starts with a delimiter
whenever the final continuation does. -/
theorem delimOkB_tail (vs : List SVal) (ind : Nat) (l : List Char)
    (hl : delimOkB l = true) :
    delimOkB ((serialize_formatted_tail vs ind).data ++ l) = true := by
  cases vs with
  | nil => simpa using hl
  | cons v vs' =>
    rw [serialize_formatted_tail]
    cases hv : v.isList
    · rw [if_neg (by simp [hv])]
      simp [String.data_append, data_lit_sp, delimOkB, isDelim, isWS]
    · rw [if_pos (by simp [hv])]
      simp [String.data_append, data_lit_nl, delimOkB, isDelim, isWS]

mutual

/-- Tokenizing the formatted rendering of a value, followed by a
delimiter-led continuation, yields the value's token stream followed by
the continuation's tokens. -/
theorem tok_fmt : ∀ (e : SVal) (ind : Nat) (l : List Char), delimOkB l = true →
    tokenize ((serialize_formatted e ind).data ++ l) = (tokenize l).map (toks e ++ ·)
  | .str s, ind, l, hl => by
    by_cases hq : needs_quoting s = true
    · have hdfmt : (serialize_formatted (.str s) ind).data
          = '"' :: ((escape_string s).data ++ ['"']) := by
        show (serialize_atom_str s).data = _
        rw [serialize_atom_str, if_pos hq]
        simp [String.data_append, data_lit_q]
      rw [hdfmt, show ('"' :: ((escape_string s).data ++ ['"'])) ++ l
        = '"' :: ((escape_string s).data ++ ('"' :: l)) by simp]
      rw [tokenize_string, show toks (.str s) = [Tok.strT s] by rw [toks, if_pos hq]]
      rfl
    · have hqf : needs_quoting s = false := by
        cases hqq : needs_quoting s
        · rfl
        · exact absurd hqq hq
      have hdfmt : (serialize_formatted (.str s) ind).data = s.data := by
        show (serialize_atom_str s).data = _
        rw [serialize_atom_str, if_neg (by simp [hqf])]
      rw [hdfmt, tokenize_bare_str hqf l hl]
      rw [show toks (.str s) = [atomToken s.data] by rw [toks, if_neg (by simp [hqf])]]
      rfl
  | .num n, ind, l, hl => by
    rw [show (serialize_formatted (.num n) ind).data = (numToString n).data from rfl]
    rw [tokenize_num n l hl]
    rfl
  | .list [], ind, l, hl => by
    rw [show (serialize_formatted (.list []) ind).data = ['(', ')'] from rfl]
    rw [show (['(', ')'] : List Char) ++ l = '(' :: (')' :: l) from rfl]
    rw [tokenize_lp, tokenize_rp, Option.map_map]
    rfl
  | .list (head :: tail), ind, l, hl => by
    by_cases hshort : ((head :: tail).length ≤ 3 && !(tail.any SVal.isList)) = true
    · have hdfmt : (serialize_formatted (.list (head :: tail)) ind).data
          = '(' :: ((serialize_oneline (head :: tail) ind).data ++ [')']) := by
        rw [serialize_formatted, if_pos hshort]
        simp [String.data_append, data_lit_lp, data_lit_rp]
      rw [hdfmt, show ('(' :: ((serialize_oneline (head :: tail) ind).data ++ [')'])) ++ l
        = '(' :: ((serialize_oneline (head :: tail) ind).data ++ (')' :: l)) by simp]
      rw [tokenize_lp, tok_oneline (head :: tail) ind (')' :: l) (by rfl)]
      rw [tokenize_rp, map_append_cons, map_cons_append]
      rfl
    · have hdfmt : (serialize_formatted (.list (head :: tail)) ind).data
          = '(' :: ((serialize_formatted head ind).data
              ++ ((serialize_formatted_tail tail ind).data ++ [')'])) := by
        rw [serialize_formatted, if_neg hshort, fmt_collapse]
        simp [String.data_append, data_lit_lp, data_lit_rp]
      rw [hdfmt, show ('(' :: ((serialize_formatted head ind).data
              ++ ((serialize_formatted_tail tail ind).data ++ [')']))) ++ l
        = '(' :: ((serialize_formatted head ind).data
              ++ ((serialize_formatted_tail tail ind).data ++ (')' :: l))) by simp]
      rw [tokenize_lp, tok_fmt head ind _ (delimOkB_tail tail ind (')' :: l) (by rfl))]
      rw [tok_tail tail ind (')' :: l) (by rfl)]
      rw [tokenize_rp, map_append_cons, map_append_assoc, map_cons_append]
      congr 1
      funext x
      simp [toks, toksList_cons, List.append_assoc]

termination_by e ind l hl => sizeOf e

theorem tok_oneline : ∀ (vs : List SVal) (ind : Nat) (l : List Char), delimOkB l = true →
    tokenize ((serialize_oneline vs ind).data ++ l) = (tokenize l).map (toksList vs ++ ·)
  | [], ind, l, hl => by
    rw [show (serialize_oneline [] ind).data = [] from rfl, List.nil_append, toksList_nil]
    cases tokenize l <;> rfl
  | [v], ind, l, hl => by
    rw [serialize_oneline, fmt_collapse, tok_fmt v ind l hl]
    rw [toksList_cons, toksList_nil, List.append_nil]
  | v :: v' :: vs, ind, l, hl => by
    rw [serialize_oneline, fmt_collapse]
    rw [show ((serialize_formatted v ind ++ " ") ++ serialize_oneline (v' :: vs) ind).data ++ l
      = (serialize_formatted v ind).data
          ++ (' ' :: ((serialize_oneline (v' :: vs) ind).data ++ l)) by
        simp [String.data_append, data_lit_sp]]
    rw [tok_fmt v ind (' ' :: ((serialize_oneline (v' :: vs) ind).data ++ l)) (by rfl)]
    rw [tokenize_ws_cons _ (by decide)]
    rw [tok_oneline (v' :: vs) ind l hl, map_append_assoc, toksList_cons]
    congr 1
    intro h
    cases h

termination_by vs ind l hl => sizeOf vs

theorem tok_tail : ∀ (vs : List SVal) (ind : Nat) (l : List Char), delimOkB l = true →
    tokenize ((serialize_formatted_tail vs ind).data ++ l)
      = (tokenize l).map (toksList vs ++ ·)
  | [], ind, l, hl => by
    rw [show (serialize_formatted_tail [] ind).data = [] from rfl, List.nil_append,
      toksList_nil]
    cases tokenize l <;> rfl
  | v :: vs, ind, l, hl => by
    rw [serialize_formatted_tail]
    cases hv : v.isList
    · rw [if_neg (by simp [hv])]
      rw [show ((" " ++ serialize_atomV v) ++ serialize_formatted_tail vs ind).data ++ l
        = ' ' :: ((serialize_atomV v).data
            ++ ((serialize_formatted_tail vs ind).data ++ l)) by
          simp [String.data_append, data_lit_sp]]
      rw [tokenize_ws_cons _ (by decide), atomV_eq_fmt hv ind]
      rw [tok_fmt v ind _ (delimOkB_tail vs ind l hl)]
      rw [tok_tail vs ind l hl, map_append_assoc, toksList_cons]
    · rw [if_pos (by simp [hv])]
      rw [show ((("\n" ++ indentStr ind ++ "  ") ++ serialize_formatted v (ind + 1))
            ++ serialize_formatted_tail vs ind).data ++ l
        = ('\n' :: ((indentStr ind).data ++ [' ', ' ']))
            ++ ((serialize_formatted v (ind + 1)).data
              ++ ((serialize_formatted_tail vs ind).data ++ l)) by
          simp [String.data_append, data_lit_nl, data_lit_two_sp]]
      rw [tokenize_ws_append _ (by
        intro c hc
        simp only [List.mem_cons, List.mem_append] at hc
        rcases hc with hc | hc | hc
        · subst hc; rfl
        · exact indentStr_ws ind c hc
        · rcases hc with hc | hc | hc <;> first | (subst hc; rfl) | cases hc)]
      rw [tok_fmt v (ind + 1) _ (delimOkB_tail vs ind l hl)]
      rw [tok_tail vs ind l hl, map_append_assoc, toksList_cons]
termination_by vs ind l hl => sizeOf vs

end

/-! ### Parsing the token stream back -/

theorem atomToken_not_numeric {cs : List Char} (h : isNumericAtom cs = false) :
    atomToken cs = .atomT ⟨cs⟩ := by
  cases cs with
  | nil => rfl
  | cons c rest =>
    rw [isNumericAtom] at h
    rw [atomToken]
    by_cases hc : c = '-'
    · rw [if_pos hc] at h
      rw [if_pos hc, if_neg (by simp [h])]
    · rw [if_neg hc] at h
      rw [if_neg hc, if_neg (by simp [h])]

theorem parseRun_rp_cons (ts : List Tok) (cur prev : List SVal)
    (stk : List (List SVal)) :
    parseRun (.rp :: ts) cur (prev :: stk)
      = parseRun ts (.list cur.reverse :: prev) stk := by
  rw [parseRun.eq_def]

mutual

/-- Parsing consumes a value's token stream and pushes the value. -/
theorem parse_toks : ∀ (e : SVal), Good e = true → ∀ ts cur stk,
    parseRun (toks e ++ ts) cur stk = parseRun ts (e :: cur) stk
  | .str s, hg, ts, cur, stk => by
    by_cases hq : needs_quoting s = true
    · rw [show toks (.str s) = [Tok.strT s] by rw [toks, if_pos hq]]
      rfl
    · have hqf : needs_quoting s = false := by
        cases hqq : needs_quoting s
        · rfl
        · exact absurd hqq hq
      have hnum : isNumericAtom s.data = false := by
        rw [Good, hqf] at hg
        simpa using hg
      rw [show toks (.str s) = [atomToken s.data] by rw [toks, if_neg (by simp [hqf])]]
      rw [atomToken_not_numeric hnum]
      rfl
  | .num n, hg, ts, cur, stk => rfl
  | .list xs, hg, ts, cur, stk => by
    have hgl : GoodL xs = true := by rw [Good] at hg; exact hg
    rw [show toks (.list xs) = Tok.lp :: (toksList xs ++ [Tok.rp]) from rfl]
    rw [show (Tok.lp :: (toksList xs ++ [Tok.rp])) ++ ts
      = Tok.lp :: (toksList xs ++ (Tok.rp :: ts)) by simp]
    rw [show parseRun (Tok.lp :: (toksList xs ++ (Tok.rp :: ts))) cur stk
      = parseRun (toksList xs ++ (Tok.rp :: ts)) [] (cur :: stk) from rfl]
    rw [parse_toksList xs hgl (Tok.rp :: ts) [] (cur :: stk)]
    rw [parseRun_rp_cons ts (xs.reverse ++ []) cur stk]
    simp
termination_by e hg ts cur stk => sizeOf e

theorem parse_toksList : ∀ (xs : List SVal), GoodL xs = true → ∀ ts cur stk,
    parseRun (toksList xs ++ ts) cur stk = parseRun ts (xs.reverse ++ cur) stk
  | [], hg, ts, cur, stk => by simp [toksList_nil]
  | x :: xs, hg, ts, cur, stk => by
    have hx : Good x = true ∧ GoodL xs = true := by
      rw [GoodL, Bool.and_eq_true] at hg
      exact hg
    rw [toksList_cons, List.append_assoc, parse_toks x hx.1, parse_toksList xs hx.2]
    simp
termination_by xs hg ts cur stk => sizeOf xs

end

theorem parseRun_toks_final (e : SVal) (hg : Good e = true) :
    parseRun (toks e) [] [] = some [e] := by
  have h := parse_toks e hg [] [] []
  rw [List.append_nil] at h
  rw [h]
  rfl

/-- The formatted rendering of a value tokenizes to exactly its token
stream. -/
theorem tokenize_fmt (e : SVal) :
    tokenize (serialize_formatted e 0).data = some (toks e) := by
  have h := tok_fmt e 0 [] rfl
  rw [List.append_nil] at h
  rw [h, tokenize_nil]
  simp

/-- Round-trip: re-parsing the serialized form of any value whose bare
string atoms are non-numeric yields the value back. -/
theorem parse_text_round (e : SVal) (hG : Good e = true) :
    parse_text (list_to_string e true) = some e := by
  rw [list_to_string, if_pos rfl, parse_text, tokenize_fmt e]
  show (match parseRun (toks e) [] [] with
    | some [e'] => some e'
    | _ => none) = some e
  rw [parseRun_toks_final e hG]

/-! ### The quoting characterization and claim C1 -/

theorem never_quote_props : never_quote.all
    (fun s => !(s.length == 0) && !(s.data.any special_char)) = true := by decide

/-- A string atom is rendered bare exactly when it is on the fixed
`never_quote` allow-list. -/
theorem needs_quoting_false_iff (s : String) :
    needs_quoting s = false ↔ never_quote.contains s = true := by
  constructor
  · intro h
    exact (needs_quoting_false_props h).2.2
  · intro h
    have hmem : s ∈ never_quote := by simpa using h
    have hprops := never_quote_props
    rw [List.all_eq_true] at hprops
    have hp := hprops s hmem
    rw [Bool.and_eq_true] at hp
    unfold needs_quoting
    rw [if_neg (by simpa using hp.1), if_neg (by simpa using hp.2), if_pos h]

/-- C1: For every valid document text T, parsing T, serializing the
resulting List with `list_to_string`, and re-tokenizing/re-parsing yields
a structurally equal List, provided no string atom of the parse is one of
the numeric allow-list entries (the amendment); and an atom is rendered
bare exactly when it is a number (always bare) or a string on the fixed
keyword allow-list. -/
theorem c1_theorem :
    (∀ (t : String) (e : SVal), parse_text t = some e → Good e = true →
      parse_text (list_to_string e true) = some e) ∧
    (∀ s : String, needs_quoting s = false ↔ never_quote.contains s = true) :=
  ⟨fun _ e _ hG => parse_text_round e hG, needs_quoting_false_iff⟩

unseal tokenize natDigits in
/-- C1 witness: a concrete round trip through `c1_theorem`. -/
theorem c1_witness :
    parse_text (list_to_string (.list [.str "wire", .num 5]) true)
      = some (.list [.str "wire", .num 5]) ∧ needs_quoting "wire" = false :=
  ⟨c1_theorem.1 "(wire 5)" (.list [.str "wire", .num 5]) (by rfl) (by decide),
   (c1_theorem.2 "wire").mpr (by decide)⟩

unseal tokenize natDigits in
/-- C1 counterexample: the document `("0")` parses to a List whose only
atom is the string `"0"`; serializing renders it bare (it is on the
allow-list), so re-parsing yields the number 0 — the atom changes type
and the round trip is not structurally equal. -/
theorem c1_counterexample :
    parse_text "(\"0\")" = some (.list [.str "0"]) ∧
    list_to_string (.list [.str "0"]) true = "(0)" ∧
    parse_text (list_to_string (.list [.str "0"]) true) = some (.list [.num 0]) ∧
    SVal.list [.num 0] ≠ SVal.list [.str "0"] :=
  ⟨rfl, rfl, rfl, by
    intro h
    injection h with h1
    injection h1 with h2 h3
    exact SVal.noConfusion h2⟩

/-! ## Viewer interaction engine (`src/viewers/base/viewer.ts`)

Positions are integer pairs (every comparison the claims exercise is
order-based, so an ordered-ring scalar is a faithful embedding of the
source's float coordinates).  The screen-space magnitude comparison
`v.magnitude > 5` is modelled by comparing the squared magnitude with
25, which is equivalent since the square root is monotone. -/

abbrev Q2 : Type := ℤ × ℤ

/-- Modelled from the spec: axis-aligned bounding box (`base/math`'s
`BBox` is not among the provided sources) with min/max corners and the
opaque back-reference `context` to the owning node. -/
structure BBox (Item : Type) where
  minX : ℤ
  minY : ℤ
  maxX : ℤ
  maxY : ℤ
  context : Option Item
deriving DecidableEq

namespace BBox

/-- Modelled from the spec: mode=contains — the region fully encloses the
node box. -/
def contains {Item : Type} (a b : BBox Item) : Bool :=
  decide (a.minX ≤ b.minX) && decide (b.maxX ≤ a.maxX) &&
  decide (a.minY ≤ b.minY) && decide (b.maxY ≤ a.maxY)

/-- Modelled from the spec: mode=intersects — the region overlaps the
node box. -/
def intersects {Item : Type} (a b : BBox Item) : Bool :=
  decide (a.minX ≤ b.maxX) && decide (b.minX ≤ a.maxX) &&
  decide (a.minY ≤ b.maxY) && decide (b.minY ≤ a.maxY)

/-- Modelled from the spec: `BBox.from_corners`, normalizing the corner
order. -/
def from_corners {Item : Type} (x1 y1 x2 y2 : ℤ) : BBox Item :=
  ⟨min x1 x2, min y1 y2, max x1 x2, max y1 y2, none⟩

/-- Point-in-box test with inclusive corners (spec §8). -/
def containsPoint {Item : Type} (b : BBox Item) (p : Q2) : Bool :=
  decide (b.minX ≤ p.1) && decide (p.1 ≤ b.maxX) &&
  decide (b.minY ≤ p.2) && decide (p.2 ≤ b.maxY)

/-- The spec's box invariant: min ≤ max componentwise. -/
def valid {Item : Type} (b : BBox Item) : Prop :=
  b.minX ≤ b.maxX ∧ b.minY ≤ b.maxY

instance {Item : Type} (b : BBox Item) : Decidable (valid b) :=
  inferInstanceAs (Decidable (_ ∧ _))

/-- `bbox.copy()` — value semantics in the embedding. -/
def copy {Item : Type} (b : BBox Item) : BBox Item := b

/-- Modelled from the spec: `BBox.combine` — the smallest box containing
all input boxes; the combined box carries no context. -/
def combine {Item : Type} : List (BBox Item) → BBox Item
  | [] => ⟨0, 0, 0, 0, none⟩
  | b :: rest =>
    rest.foldl (fun acc x =>
      ⟨min acc.minX x.minX, min acc.minY x.minY,
       max acc.maxX x.maxX, max acc.maxY x.maxY, none⟩)
      ⟨b.minX, b.minY, b.maxX, b.maxY, none⟩

/-- Containment implies intersection for valid boxes, so ORing the two
tests equals the intersection test alone. -/
theorem contains_or_intersects {Item : Type} (a b : BBox Item)
    (hb : b.valid) : (contains a b || intersects a b) = intersects a b := by
  cases hc : contains a b
  · rfl
  · simp only [Bool.true_or]
    simp only [contains, Bool.and_eq_true, decide_eq_true_eq] at hc
    obtain ⟨⟨⟨h1, h2⟩, h3⟩, h4⟩ := hc
    obtain ⟨hvx, hvy⟩ := hb
    have hi : intersects a b = true := by
      simp only [intersects, Bool.and_eq_true, decide_eq_true_eq]
      exact ⟨⟨⟨le_trans h1 hvx, le_trans hvx h2⟩,
        le_trans h3 hvy⟩, le_trans hvy h4⟩
    exact hi.symm

end BBox

/-- A view layer: visibility, the interactive (hit-testable) flag, and
the node → bounding box index (`view-layers.ts` is not among the provided
sources; modelled from the spec, with the fields `complete_box_selection`,
`select_items` and `paint_selected` consume). -/
structure ViewLayer (Item : Type) where
  visible : Bool
  interactive : Bool
  bboxes : List (Item × BBox Item)

/-- `layers.in_order()`: all layers, front-to-back. -/
def in_order {Item : Type} (layers : List (ViewLayer Item)) :
    List (ViewLayer Item) := layers

/-- `layers.interactive_layers()`. -/
def interactive_layers {Item : Type} (layers : List (ViewLayer Item)) :
    List (ViewLayer Item) := layers.filter (·.interactive)

/-- Modelled from the spec: `query_point` tests point-in-bbox across
interactive layers in front-to-back order. -/
def query_point {Item : Type} : List (ViewLayer Item) → Q2 → List (Item × BBox Item)
  | [], _ => []
  | L :: rest, p =>
    (if L.interactive then L.bboxes.filter (fun ib => ib.2.containsPoint p) else [])
      ++ query_point rest p

/-- The payload of a `KiCanvasSelectEvent`: the new and previous
single-item references. -/
structure SelectEvent (Item : Type) where
  item : Option Item
  previous : Option Item
deriving DecidableEq

/-- The mutable fields of the `Viewer` class that the selection claims
concern, plus a log of dispatched selection events and a count of
scheduled overlay repaints. -/
structure ViewerState (Item : Type) where
  layers : List (ViewLayer Item)
  mouse_position : Q2
  mouse_down_position : Option Q2
  box_selection_start : Option Q2
  box_selection_end : Option Q2
  is_box_selecting : Bool
  selected_items : List Item
  selection_bbox : Option (BBox Item)
  selected : Option (BBox Item)
  events : List (SelectEvent Item)
  repaints : Nat

/-- The camera's world/screen transforms (`viewport.camera`, not among
the provided sources; kept abstract). -/
structure Camera where
  s2w : Q2 → Q2
  w2s : Q2 → Q2

/-- Squared screen-space displacement; `v.magnitude > t` for `t ≥ 0` is
equivalent to `sqDist > t²`. -/
def sqDist (a b : Q2) : ℤ :=
  (a.1 - b.1) * (a.1 - b.1) + (a.2 - b.2) * (a.2 - b.2)

/-- `Set.add`: append if not already present (JS sets preserve insertion
order and deduplicate). -/
def addSel {Item : Type} [DecidableEq Item] (sel : List Item) (x : Item) :
    List Item := if x ∈ sel then sel else sel ++ [x]

/-! ### Selection operations (`viewer.ts`) -/

/-- `_update_selection(bboxes)` from `viewer.ts`: derive the combined
bounding box and the legacy single selection, dispatch a selection event
carrying the new and previous single-item references, and schedule an
overlay repaint. -/
def update_selection {Item : Type} (st : ViewerState Item)
    (bboxes : List (BBox Item)) : ViewerState Item :=
  let previous := st.selected
  let sel : Option (BBox Item) :=
    match bboxes with
    | [] => none
    | [b] => some b.copy
    | bs => some (BBox.combine bs)
  { st with
    selection_bbox := sel
    selected := sel
    events := ⟨sel.bind (·.context), previous.bind (·.context)⟩ :: st.events
    repaints := st.repaints + 1 }

/-- The per-item bounding-box lookup inside `select_items`: the first
index entry for the item in each interactive layer (the inner loop breaks
after the first hit, the outer loop continues across layers). -/
def item_bboxes {Item : Type} [DecidableEq Item]
    (layers : List (ViewLayer Item)) (it : Item) : List (BBox Item) :=
  (interactive_layers layers).filterMap
    (fun L => (L.bboxes.find? (fun ib => decide (ib.1 = it))).map (·.2))

/-- `select_items(items, additive)` from `viewer.ts`. -/
def select_items {Item : Type} [DecidableEq Item] (st : ViewerState Item)
    (items : List Item) (additive : Bool) : ViewerState Item :=
  let sel0 := if additive then st.selected_items else []
  let sel := items.foldl addSel sel0
  let bboxes := items.foldl (fun acc it => acc ++ item_bboxes st.layers it) []
  update_selection { st with selected_items := sel } bboxes

/-- `clear_selection()` from `viewer.ts`: clears the three selection
fields; dispatches an event with both references null (and schedules a
repaint) only when something was selected. -/
def clear_selection {Item : Type} (st : ViewerState Item) : ViewerState Item :=
  let st' :=
    { st with
      selected_items := []
      selection_bbox := none
      selected := none }
  if st.selected_items.isEmpty then st'
  else
    { st' with
      events := ⟨none, none⟩ :: st.events
      repaints := st.repaints + 1 }

/-- `_set_selected(bb)` from `viewer.ts` (the legacy `selected` setter):
update the legacy field, mirror into the multi-selection only when the
box is null or carries a context, dispatch, and schedule a repaint. -/
def set_selected {Item : Type} (st : ViewerState Item)
    (bb : Option (BBox Item)) : ViewerState Item :=
  let previous := st.selected
  let st1 := { st with selected := Option.map BBox.copy bb }
  let st2 :=
    match bb with
    | none => { st1 with selected_items := [], selection_bbox := none }
    | some b =>
      match b.context with
      | some c =>
        { st1 with
          selected_items := [c]
          selection_bbox := some b.copy }
      | none => st1
  { st2 with
    events := ⟨bb.bind (·.context), previous.bind (·.context)⟩ :: st.events
    repaints := st.repaints + 1 }

/-- `select(item)` — the legacy setter. -/
def select {Item : Type} (st : ViewerState Item) (bb : Option (BBox Item)) :
    ViewerState Item := set_selected st bb

/-- `on_pick`: take the first (topmost) hit's bbox, or null. -/
def on_pick {Item : Type} (st : ViewerState Item)
    (items : List (Item × BBox Item)) : ViewerState Item :=
  select st (items.head?.map (·.2))

/-- `complete_box_selection(start, end)` from `viewer.ts`: query ALL
layers (skipping invisible or empty ones), collect every item whose box
is contained in or intersects the selection rectangle, and replace the
selection with the result. -/
def complete_box_selection {Item : Type} [DecidableEq Item]
    (st : ViewerState Item) (start end_ : Q2) : ViewerState Item :=
  let selection_bbox : BBox Item :=
    BBox.from_corners start.1 start.2 end_.1 end_.2
  let selected : List Item :=
    (in_order st.layers).foldl (fun acc L =>
      if L.visible && !L.bboxes.isEmpty then
        L.bboxes.foldl (fun acc2 ib =>
          if selection_bbox.contains ib.2 || selection_bbox.intersects ib.2 then
            addSel acc2 ib.1
          else acc2) acc
      else acc) []
  select_items st selected false

/-! ### Pointer handlers (`viewer.ts`) -/

/-- The pointer/keyboard events the engine consumes (primary-button
events only; `screen` is the event position in canvas coordinates). -/
inductive PEvent where
  | down (screen : Q2) (ctrl shift : Bool)
  | move (screen : Q2)
  | up (screen : Q2)
  | escape

/-- `on_mouse_change`: track the world-space pointer position. -/
def on_mouse_change {Item : Type} (cam : Camera) (st : ViewerState Item)
    (screen : Q2) : ViewerState Item :=
  if st.mouse_position = cam.s2w screen then st
  else { st with mouse_position := cam.s2w screen }

/-- `on_mouse_down`: modifier keys suppress tracking; otherwise record
the press position (the current tracked world position). -/
def on_mouse_down {Item : Type} (st : ViewerState Item)
    (ctrl shift : Bool) : ViewerState Item :=
  if ctrl || shift then st
  else
    { st with
      mouse_down_position := some st.mouse_position
      is_box_selecting := false }

/-- `on_box_selection_move`: once the squared screen displacement from
the press position exceeds 5², start (if needed) and update the box
selection corners and schedule an overlay repaint. -/
def on_box_selection_move {Item : Type} (cam : Camera)
    (st : ViewerState Item) (screen : Q2) : ViewerState Item :=
  match st.mouse_down_position with
  | none => st
  | some dw =>
    if sqDist screen (cam.w2s dw) > 25 then
      let st1 :=
        match st.box_selection_start with
        | none =>
          { st with
            box_selection_start := some dw
            is_box_selecting := true }
        | some _ => st
      { st1 with
        box_selection_end := some st1.mouse_position
        repaints := st1.repaints + 1 }
    else st

/-- `on_mouse_up`: a squared displacement of at most 5² resolves as a
click at the tracked mouse position; a larger displacement resolves the
box selection if its corners were set; always reset the tracking state
and schedule a repaint. -/
def on_mouse_up {Item : Type} [DecidableEq Item] (cam : Camera)
    (st : ViewerState Item) (screen : Q2) : ViewerState Item :=
  match st.mouse_down_position with
  | none => st
  | some dw =>
    let st1 :=
      if sqDist screen (cam.w2s dw) ≤ 25 then
        on_pick st (query_point st.layers st.mouse_position)
      else
        match st.box_selection_start, st.box_selection_end with
        | some bs, some be => complete_box_selection st bs be
        | _, _ => st
    { st1 with
      mouse_down_position := none
      box_selection_start := none
      box_selection_end := none
      is_box_selecting := false
      repaints := st1.repaints + 1 }

/-- One input event, dispatched as the `setup()` listeners do: canvas
mousemove updates the tracked position and, while the button is down,
feeds the box-selection tracker; document mouseup and Escape map to
their handlers. -/
def step {Item : Type} [DecidableEq Item] (cam : Camera)
    (st : ViewerState Item) : PEvent → ViewerState Item
  | .down _ ctrl shift => on_mouse_down st ctrl shift
  | .move s =>
    let st1 := on_mouse_change cam st s
    if st1.mouse_down_position.isSome then on_box_selection_move cam st1 s
    else st1
  | .up s => on_mouse_up cam st s
  | .escape => clear_selection st

def run {Item : Type} [DecidableEq Item] (cam : Camera)
    (st : ViewerState Item) (evs : List PEvent) : ViewerState Item :=
  evs.foldl (step cam) st

/-- A fresh interactive viewer over the given layer set. -/
def init_viewer {Item : Type} (layers : List (ViewLayer Item)) :
    ViewerState Item :=
  ⟨layers, (0, 0), none, none, none, false, [], none, none, [], 0⟩

/-! ### Selection set membership -/

theorem mem_addSel {Item : Type} [DecidableEq Item] (sel : List Item)
    (a x : Item) : x ∈ addSel sel a ↔ x ∈ sel ∨ x = a := by
  unfold addSel
  split_ifs with h
  · constructor
    · exact Or.inl
    · rintro (hx | hx)
      · exact hx
      · exact hx ▸ h
  · simp [List.mem_append]

theorem mem_foldl_addSel {Item : Type} [DecidableEq Item] (items : List Item) :
    ∀ (sel : List Item) (x : Item),
      x ∈ items.foldl addSel sel ↔ x ∈ sel ∨ x ∈ items := by
  induction items with
  | nil => simp
  | cons a rest ih =>
    intro sel x
    rw [List.foldl_cons, ih, mem_addSel]
    simp only [List.mem_cons]
    constructor
    · rintro ((hx | hx) | hx)
      · exact Or.inl hx
      · exact Or.inr (Or.inl hx)
      · exact Or.inr (Or.inr hx)
    · rintro (hx | hx | hx)
      · exact Or.inl (Or.inl hx)
      · exact Or.inl (Or.inr hx)
      · exact Or.inr hx

theorem update_selection_selected_items {Item : Type} (st : ViewerState Item)
    (bboxes : List (BBox Item)) :
    (update_selection st bboxes).selected_items = st.selected_items := rfl

theorem select_items_selected_items {Item : Type} [DecidableEq Item]
    (st : ViewerState Item) (items : List Item) (additive : Bool) :
    (select_items st items additive).selected_items
      = items.foldl addSel (if additive then st.selected_items else []) := rfl

/-- C6: calling `select_items(X, additive := false)` and then
`select_items(Y, additive := true)` leaves the selection set equal to
X ∪ Y (as a set: membership is equivalent to membership in X or Y). -/
theorem c6_theorem {Item : Type} [DecidableEq Item] (st : ViewerState Item)
    (X Y : List Item) (it : Item) :
    it ∈ (select_items (select_items st X false) Y true).selected_items ↔
      it ∈ X ∨ it ∈ Y := by
  rw [select_items_selected_items, if_pos rfl, mem_foldl_addSel,
    select_items_selected_items, if_neg (by simp), mem_foldl_addSel]
  simp

/-- C6 witness: a concrete union. -/
theorem c6_witness :
    (2 ∈ (select_items (select_items (init_viewer ([] : List (ViewLayer Nat))) [1, 2] false) [3] true).selected_items ↔ 2 ∈ [1, 2] ∨ 2 ∈ [3]) ∧
    2 ∈ (select_items (select_items (init_viewer ([] : List (ViewLayer Nat))) [1, 2] false) [3] true).selected_items :=
  ⟨c6_theorem _ [1, 2] [3] 2, (c6_theorem _ [1, 2] [3] 2).mpr (by decide)⟩

theorem item_bboxes_nil {Item : Type} [DecidableEq Item]
    (layers : List (ViewLayer Item)) (it : Item)
    (h : ∀ L ∈ interactive_layers layers, ∀ ib ∈ L.bboxes, ib.1 ≠ it) :
    item_bboxes layers it = [] := by
  unfold item_bboxes
  rw [List.filterMap_eq_nil]
  intro L hL
  rw [Option.map_eq_none']
  rw [List.find?_eq_none]
  intro ib hib
  simp only [decide_eq_true_eq]
  exact h L hL ib hib

theorem foldl_append_all_nil {Item : Type} (f : Item → List (BBox Item))
    (items : List Item) :
    ∀ acc, (∀ it ∈ items, f it = []) →
      items.foldl (fun acc it => acc ++ f it) acc = acc := by
  induction items with
  | nil => intro acc _; rfl
  | cons a rest ih =>
    intro acc h
    rw [List.foldl_cons, h a (by simp), List.append_nil]
    exact ih acc (fun it hit => h it (by simp [hit]))

/-- C10: replacing the selection with a non-empty collection none of
whose members occurs in any interactive layer's bounding-box index leaves
`selected_items` equal to the collection while both the legacy `selected`
accessor and the combined selection bounding box are null — a non-empty
multi-selection that presents as no selection to legacy callers. -/
theorem c10_theorem {Item : Type} [DecidableEq Item] (st : ViewerState Item)
    (items : List Item) (hne : items ≠ [])
    (habs : ∀ it ∈ items, ∀ L ∈ interactive_layers st.layers,
      ∀ ib ∈ L.bboxes, ib.1 ≠ it) :
    (∀ it, it ∈ (select_items st items false).selected_items ↔ it ∈ items) ∧
    (select_items st items false).selected_items ≠ [] ∧
    (select_items st items false).selected = none ∧
    (select_items st items false).selection_bbox = none := by
  have hbb : items.foldl (fun acc it => acc ++ item_bboxes st.layers it) [] = [] :=
    foldl_append_all_nil _ items []
      (fun it hit => item_bboxes_nil st.layers it (habs it hit))
  refine ⟨?_, ?_, ?_, ?_⟩
  · intro it
    rw [select_items_selected_items, if_neg (by simp), mem_foldl_addSel]
    simp
  · cases hi : items with
    | nil => exact absurd hi hne
    | cons a rest =>
      intro hsel
      have : a ∈ (select_items st items false).selected_items := by
        rw [select_items_selected_items, if_neg (by simp), mem_foldl_addSel]
        simp [hi]
      rw [hi, hsel] at this
      cases this
  · show (update_selection _ _).selected = none
    unfold update_selection
    rw [hbb]
  · show (update_selection _ _).selection_bbox = none
    unfold update_selection
    rw [hbb]

/-- C10 witness: one unindexed item selected programmatically. -/
theorem c10_witness :
    (∀ it, it ∈ (select_items (init_viewer ([⟨true, true, [(1, ⟨0, 0, 1, 1, some 1⟩)]⟩] : List (ViewLayer Nat))) [7] false).selected_items ↔ it ∈ [7]) ∧
    (select_items (init_viewer ([⟨true, true, [(1, ⟨0, 0, 1, 1, some 1⟩)]⟩] : List (ViewLayer Nat))) [7] false).selected_items ≠ [] ∧
    (select_items (init_viewer ([⟨true, true, [(1, ⟨0, 0, 1, 1, some 1⟩)]⟩] : List (ViewLayer Nat))) [7] false).selected = none ∧
    (select_items (init_viewer ([⟨true, true, [(1, ⟨0, 0, 1, 1, some 1⟩)]⟩] : List (ViewLayer Nat))) [7] false).selection_bbox = none :=
  c10_theorem _ [7] (by decide) (by decide)

/-- C5 (amended): `select_items` and the legacy `selected` setter always
dispatch a selection-changed notification carrying the new and previous
single-item references and schedule an overlay repaint; `clear_selection`
dispatches a notification and schedules a repaint only when the selection
was non-empty, and its notification carries null for BOTH the new and the
previous reference (the previous reference is not preserved). -/
theorem c5_theorem {Item : Type} [DecidableEq Item] (st : ViewerState Item) :
    (∀ (items : List Item) (additive : Bool),
      (select_items st items additive).events
        = ⟨Option.bind (select_items st items additive).selected BBox.context,
           Option.bind st.selected BBox.context⟩ :: st.events ∧
      (select_items st items additive).repaints = st.repaints + 1) ∧
    (∀ bb : Option (BBox Item),
      (set_selected st bb).events
        = ⟨Option.bind bb BBox.context,
           Option.bind st.selected BBox.context⟩ :: st.events ∧
      (set_selected st bb).repaints = st.repaints + 1) ∧
    (st.selected_items ≠ [] →
      (clear_selection st).events = ⟨none, none⟩ :: st.events ∧
      (clear_selection st).repaints = st.repaints + 1) ∧
    (st.selected_items = [] →
      (clear_selection st).events = st.events ∧
      (clear_selection st).repaints = st.repaints) := by
  refine ⟨fun items additive => ⟨rfl, rfl⟩, fun bb => ⟨rfl, rfl⟩, ?_, ?_⟩
  · intro h
    unfold clear_selection
    rw [if_neg (by simpa [List.isEmpty_iff] using h)]
    exact ⟨rfl, rfl⟩
  · intro h
    unfold clear_selection
    rw [if_pos (by simpa [List.isEmpty_iff] using h)]
    exact ⟨rfl, rfl⟩

/-- The state used by the C5 counterexample and witness: item 0 is
selected, with the legacy selected box carrying it as context. -/
def c5_state : ViewerState Nat :=
  { init_viewer [] with
    selected := some ⟨0, 0, 1, 1, some 0⟩
    selected_items := [0]
    selection_bbox := some ⟨0, 0, 1, 1, some 0⟩ }

/-- C5 counterexample: clearing a non-empty selection whose previous
single-item reference is item 0 dispatches a notification whose
`previous` field is null, not item 0 — the notification does not carry
the previous single-item reference. -/
theorem c5_counterexample :
    Option.bind c5_state.selected BBox.context = some 0 ∧
    (clear_selection c5_state).events = [⟨none, none⟩] ∧
    ∀ ev ∈ (clear_selection c5_state).events, ev.previous ≠ some 0 := by
  refine ⟨rfl, rfl, ?_⟩
  intro ev hev
  rw [show (clear_selection c5_state).events = [⟨none, none⟩] from rfl] at hev
  simp only [List.mem_singleton] at hev
  subst hev
  simp

/-- C5 witness: the amended clear branch at a concrete non-empty
selection. -/
theorem c5_witness :
    (clear_selection c5_state).events = ⟨none, none⟩ :: c5_state.events ∧
    (clear_selection c5_state).repaints = c5_state.repaints + 1 :=
  (c5_theorem c5_state).2.2.1 (by decide)

/-! ### Box selection membership -/

theorem mem_foldl_bboxes {Item : Type} [DecidableEq Item] (R : BBox Item)
    (entries : List (Item × BBox Item)) :
    ∀ (acc : List Item) (x : Item),
      x ∈ entries.foldl (fun acc2 ib =>
          if R.contains ib.2 || R.intersects ib.2 then addSel acc2 ib.1
          else acc2) acc ↔
        x ∈ acc ∨ ∃ bb, (x, bb) ∈ entries ∧
          (R.contains bb || R.intersects bb) = true := by
  induction entries with
  | nil => simp
  | cons ib rest ih =>
    intro acc x
    rw [List.foldl_cons]
    by_cases hc : (R.contains ib.2 || R.intersects ib.2) = true
    · rw [if_pos hc, ih, mem_addSel]
      constructor
      · rintro ((hx | hx) | ⟨bb, hbb, hR⟩)
        · exact Or.inl hx
        · exact Or.inr ⟨ib.2, by
            rw [List.mem_cons]
            exact Or.inl (by rw [hx]), hc⟩
        · exact Or.inr ⟨bb, by simp [hbb], hR⟩
      · rintro (hx | ⟨bb, hbb, hR⟩)
        · exact Or.inl (Or.inl hx)
        · rw [List.mem_cons] at hbb
          rcases hbb with hbb | hbb
          · refine Or.inl (Or.inr ?_)
            rw [show ib = (x, bb) from hbb.symm]
          · exact Or.inr ⟨bb, hbb, hR⟩
    · rw [if_neg hc, ih]
      constructor
      · rintro (hx | ⟨bb, hbb, hR⟩)
        · exact Or.inl hx
        · exact Or.inr ⟨bb, by simp [hbb], hR⟩
      · rintro (hx | ⟨bb, hbb, hR⟩)
        · exact Or.inl hx
        · rw [List.mem_cons] at hbb
          rcases hbb with hbb | hbb
          · exfalso
            rw [show ib = (x, bb) from hbb.symm] at hc
            exact hc hR
          · exact Or.inr ⟨bb, hbb, hR⟩

theorem mem_foldl_layers {Item : Type} [DecidableEq Item] (R : BBox Item)
    (layers : List (ViewLayer Item)) :
    ∀ (acc : List Item) (x : Item),
      x ∈ layers.foldl (fun acc L =>
          if L.visible && !L.bboxes.isEmpty then
            L.bboxes.foldl (fun acc2 ib =>
              if R.contains ib.2 || R.intersects ib.2 then addSel acc2 ib.1
              else acc2) acc
          else acc) acc ↔
        x ∈ acc ∨ ∃ L ∈ layers, L.visible = true ∧ ∃ bb, (x, bb) ∈ L.bboxes ∧
          (R.contains bb || R.intersects bb) = true := by
  induction layers with
  | nil => simp
  | cons L rest ih =>
    intro acc x
    rw [List.foldl_cons]
    by_cases hv : (L.visible && !L.bboxes.isEmpty) = true
    · rw [if_pos hv, ih, mem_foldl_bboxes]
      rw [Bool.and_eq_true] at hv
      constructor
      · rintro ((hx | ⟨bb, hbb, hR⟩) | ⟨L', hL', hv', bb, hbb, hR⟩)
        · exact Or.inl hx
        · exact Or.inr ⟨L, by simp, hv.1, bb, hbb, hR⟩
        · exact Or.inr ⟨L', by simp [hL'], hv', bb, hbb, hR⟩
      · rintro (hx | ⟨L', hL', hv', bb, hbb, hR⟩)
        · exact Or.inl (Or.inl hx)
        · rw [List.mem_cons] at hL'
          rcases hL' with hL' | hL'
          · exact Or.inl (Or.inr ⟨bb, by rw [← hL']; exact hbb, hR⟩)
          · exact Or.inr ⟨L', hL', hv', bb, hbb, hR⟩
    · rw [if_neg hv, ih]
      constructor
      · rintro (hx | ⟨L', hL', hv', bb, hbb, hR⟩)
        · exact Or.inl hx
        · exact Or.inr ⟨L', by simp [hL'], hv', bb, hbb, hR⟩
      · rintro (hx | ⟨L', hL', hv', bb, hbb, hR⟩)
        · exact Or.inl hx
        · rw [List.mem_cons] at hL'
          rcases hL' with hL' | hL'
          · exfalso
            subst hL'
            apply hv
            rw [Bool.and_eq_true]
            refine ⟨hv', ?_⟩
            have hne : L'.bboxes ≠ [] := by
              intro h0
              rw [h0] at hbb
              cases hbb
            simpa [List.isEmpty_iff] using hne
          · exact Or.inr ⟨L', hL', hv', bb, hbb, hR⟩

/-- C2 (amended): releasing the primary button while box-selecting
replaces the selection set with exactly those nodes, drawn from ALL
visible layers with a non-empty bounding-box index (not only the
interactive ones), whose bounding box intersects the rectangle spanned
by the recorded box corners; ORing containment with intersection does
not change the result (for valid boxes), and an empty result clears the
selection. -/
theorem c2_theorem {Item : Type} [DecidableEq Item] (cam : Camera)
    (st : ViewerState Item) (u dw bs be : Q2)
    (hdown : st.mouse_down_position = some dw)
    (hstart : st.box_selection_start = some bs)
    (hend : st.box_selection_end = some be)
    (hdist : sqDist u (cam.w2s dw) > 25)
    (hvalid : ∀ L ∈ st.layers, ∀ ib ∈ L.bboxes, BBox.valid (ib.2 : BBox Item)) :
    (∀ x, x ∈ (step cam st (.up u)).selected_items ↔
      ∃ L ∈ st.layers, L.visible = true ∧ ∃ bb, (x, bb) ∈ L.bboxes ∧
        BBox.intersects (BBox.from_corners bs.1 bs.2 be.1 be.2) bb = true) ∧
    ((∀ L ∈ st.layers, L.visible = true → ∀ ib ∈ L.bboxes,
        BBox.intersects (BBox.from_corners bs.1 bs.2 be.1 be.2) ib.2 = false) →
      (step cam st (.up u)).selected_items = []) := by
  have hmem : ∀ x, x ∈ (step cam st (.up u)).selected_items ↔
      ∃ L ∈ st.layers, L.visible = true ∧ ∃ bb, (x, bb) ∈ L.bboxes ∧
        BBox.intersects (BBox.from_corners bs.1 bs.2 be.1 be.2) bb = true := by
    intro x
    show x ∈ (on_mouse_up cam st u).selected_items ↔ _
    unfold on_mouse_up
    simp only [hdown]
    rw [if_neg (not_le.mpr hdist)]
    simp only [hstart, hend]
    show x ∈ (complete_box_selection st bs be).selected_items ↔ _
    unfold complete_box_selection
    rw [select_items_selected_items, if_neg (by simp), mem_foldl_addSel,
      mem_foldl_layers]
    unfold in_order
    simp only [List.not_mem_nil, false_or]
    constructor
    · rintro ⟨L, hL, hv, bb, hbb, hR⟩
      refine ⟨L, hL, hv, bb, hbb, ?_⟩
      rw [← BBox.contains_or_intersects _ bb (hvalid L hL (x, bb) hbb)]
      exact hR
    · rintro ⟨L, hL, hv, bb, hbb, hR⟩
      refine ⟨L, hL, hv, bb, hbb, ?_⟩
      rw [BBox.contains_or_intersects _ bb (hvalid L hL (x, bb) hbb)]
      exact hR
  refine ⟨hmem, ?_⟩
  intro hnone
  rw [List.eq_nil_iff_forall_not_mem]
  intro x hx
  rw [hmem x] at hx
  obtain ⟨L, hL, hv, bb, hbb, hR⟩ := hx
  have := hnone L hL hv (x, bb) hbb
  rw [this] at hR
  cases hR

def c2_cam : Camera := ⟨id, id⟩

/-- A box-selecting state whose only layer is visible but NOT
interactive, holding item 0 inside the selection rectangle. -/
def c2_state : ViewerState Nat :=
  { init_viewer [⟨true, false, [(0, ⟨1, 1, 2, 2, some 0⟩)]⟩] with
    mouse_down_position := some (0, 0)
    box_selection_start := some (0, 0)
    box_selection_end := some (3, 3)
    is_box_selecting := true }

/-- C2 counterexample: completing the box selection selects item 0 even
though no interactive layer's index contains any node at all — the code
queries all visible layers, not the interactive ones, so a node outside
every interactive layer's index is selected (the claim predicts an empty
selection here). -/
theorem c2_counterexample :
    (step c2_cam c2_state (.up (10, 10))).selected_items = [0] ∧
    interactive_layers c2_state.layers = [] := by
  exact ⟨by decide, rfl⟩

/-- The same state with the layer marked interactive, for the witness. -/
def c2w_state : ViewerState Nat :=
  { init_viewer [⟨true, true, [(0, ⟨1, 1, 2, 2, some 0⟩)]⟩] with
    mouse_down_position := some (0, 0)
    box_selection_start := some (0, 0)
    box_selection_end := some (3, 3)
    is_box_selecting := true }

/-- C2 witness: the amended characterization applied at a concrete
box-selection release. -/
theorem c2_witness :
    0 ∈ (step c2_cam c2w_state (.up (10, 10))).selected_items ↔
      ∃ L ∈ c2w_state.layers, L.visible = true ∧ ∃ bb, ((0 : ℕ), bb) ∈ L.bboxes ∧
        BBox.intersects (BBox.from_corners ((0 : ℤ), (0 : ℤ)).1 ((0 : ℤ), (0 : ℤ)).2
          ((3 : ℤ), (3 : ℤ)).1 ((3 : ℤ), (3 : ℤ)).2) bb = true :=
  (c2_theorem c2_cam c2w_state (10, 10) (0, 0) (0, 0) (3, 3) rfl rfl rfl
    (by decide) (by decide)).1 0

theorem on_mouse_change_down {Item : Type} (cam : Camera)
    (st : ViewerState Item) (s : Q2) :
    (on_mouse_change cam st s).mouse_down_position = st.mouse_down_position := by
  unfold on_mouse_change
  split <;> rfl

theorem on_mouse_change_start {Item : Type} (cam : Camera)
    (st : ViewerState Item) (s : Q2) :
    (on_mouse_change cam st s).box_selection_start = st.box_selection_start := by
  unfold on_mouse_change
  split <;> rfl

/-- C4 (amended): with the primary button held from an unmodified press,
(i) a release whose screen displacement is at most 5 pixels (squared: 25)
— in particular exactly 5 — resolves as a click; (ii) a move whose
displacement strictly exceeds 5 pixels transitions to box selection;
(iii) a release whose displacement strictly exceeds 5 pixels resolves as
a box selection when a prior move had set the box corners; (iv) but when
no prior move exceeded the threshold, such a release resolves nothing —
the selection and event log are left unchanged.  The boundary is
exclusive on the box-select side. -/
theorem c4_theorem {Item : Type} [DecidableEq Item] (cam : Camera)
    (st : ViewerState Item) (u m dw : Q2)
    (hdown : st.mouse_down_position = some dw) :
    (sqDist u (cam.w2s dw) ≤ 25 →
      (step cam st (.up u)).selected_items
          = (on_pick st (query_point st.layers st.mouse_position)).selected_items ∧
      (step cam st (.up u)).selected
          = (on_pick st (query_point st.layers st.mouse_position)).selected ∧
      (step cam st (.up u)).events
          = (on_pick st (query_point st.layers st.mouse_position)).events) ∧
    (sqDist m (cam.w2s dw) > 25 → st.box_selection_start = none →
      (step cam st (.move m)).is_box_selecting = true) ∧
    (∀ bs be, sqDist u (cam.w2s dw) > 25 → st.box_selection_start = some bs →
      st.box_selection_end = some be →
      (step cam st (.up u)).selected_items
          = (complete_box_selection st bs be).selected_items ∧
      (step cam st (.up u)).events = (complete_box_selection st bs be).events) ∧
    (sqDist u (cam.w2s dw) > 25 → st.box_selection_start = none →
      (step cam st (.up u)).selected_items = st.selected_items ∧
      (step cam st (.up u)).selected = st.selected ∧
      (step cam st (.up u)).events = st.events) := by
  refine ⟨?_, ?_, ?_, ?_⟩
  · intro hle
    show (on_mouse_up cam st u).selected_items = _ ∧
      (on_mouse_up cam st u).selected = _ ∧ (on_mouse_up cam st u).events = _
    unfold on_mouse_up
    simp only [hdown]
    rw [if_pos hle]
    exact ⟨rfl, rfl, rfl⟩
  · intro hd hstart
    have hstep : step cam st (.move m)
        = if (on_mouse_change cam st m).mouse_down_position.isSome then
            on_box_selection_move cam (on_mouse_change cam st m) m
          else on_mouse_change cam st m := rfl
    rw [hstep, if_pos (by rw [on_mouse_change_down, hdown]; rfl)]
    unfold on_box_selection_move
    simp only [on_mouse_change_down, hdown]
    rw [if_pos hd]
    simp only [on_mouse_change_start, hstart]
  · intro bs be hd hbs hbe
    show (on_mouse_up cam st u).selected_items = _ ∧ (on_mouse_up cam st u).events = _
    unfold on_mouse_up
    simp only [hdown]
    rw [if_neg (not_le.mpr hd)]
    simp only [hbs, hbe]
    exact ⟨trivial, trivial⟩
  · intro hd hstart
    show (on_mouse_up cam st u).selected_items = _ ∧
      (on_mouse_up cam st u).selected = _ ∧ (on_mouse_up cam st u).events = _
    unfold on_mouse_up
    simp only [hdown]
    rw [if_neg (not_le.mpr hd)]
    simp only [hstart]
    exact ⟨trivial, trivial, trivial⟩

def c4_cam : Camera := ⟨id, id⟩

/-- A fresh viewer with one visible interactive layer holding item 0 on
a box overlapping the pointer path. -/
def c4_state : ViewerState Nat :=
  init_viewer [⟨true, true, [(0, ⟨-1, -1, 11, 11, some 0⟩)]⟩]

/-- C4 counterexample: press, then release 10 pixels away with no
intervening move — the displacement strictly exceeds 5 pixels, yet
nothing resolves: no box selection is performed, no selection-changed
event is dispatched, and the selection stays empty, even though item 0's
box intersects the spanned rectangle (the claim predicts the release
resolves as a box selection). -/
theorem c4_counterexample :
    (run c4_cam c4_state
      [PEvent.move (0, 0), PEvent.down (0, 0) false false,
       PEvent.up (10, 0)]).events = [] ∧
    (run c4_cam c4_state
      [PEvent.move (0, 0), PEvent.down (0, 0) false false,
       PEvent.up (10, 0)]).selected_items = [] ∧
    sqDist (10, 0) (c4_cam.w2s (0, 0)) > 25 ∧
    BBox.intersects (BBox.from_corners 0 0 10 0) (⟨-1, -1, 11, 11, some 0⟩ : BBox Nat) = true := by
  exact ⟨by decide, by decide, by decide, by decide⟩

/-- The state for the C4 witness: tracking with the press recorded at the
origin. -/
def c4w_state : ViewerState Nat :=
  { c4_state with mouse_down_position := some (0, 0) }

/-- C4 witness: a release at screen displacement exactly 5 pixels
(squared distance 25, via the (3,4) pointer offset) resolves as a click. -/
theorem c4_witness :
    (step c4_cam c4w_state (.up (3, 4))).selected_items
        = (on_pick c4w_state (query_point c4w_state.layers c4w_state.mouse_position)).selected_items ∧
    (step c4_cam c4w_state (.up (3, 4))).selected
        = (on_pick c4w_state (query_point c4w_state.layers c4w_state.mouse_position)).selected ∧
    (step c4_cam c4w_state (.up (3, 4))).events
        = (on_pick c4w_state (query_point c4w_state.layers c4w_state.mouse_position)).events :=
  (c4_theorem c4_cam c4w_state (3, 4) (0, 0) (0, 0) rfl).1 (by decide)

/-- C8 (amended): a primary-button release whose displacement never
exceeded the drag threshold resolves as a click by querying `query_point`
at the CURRENT TRACKED mouse position (the position of the last move
event, which the mouseup handler does not refresh — not necessarily the
release position): the topmost hit becomes the single new selection,
replacing any existing one, and an empty query clears the selection. -/
theorem c8_theorem {Item : Type} [DecidableEq Item] (cam : Camera)
    (st : ViewerState Item) (u dw : Q2)
    (hdown : st.mouse_down_position = some dw)
    (hle : sqDist u (cam.w2s dw) ≤ 25) :
    (query_point st.layers st.mouse_position = [] →
      (step cam st (.up u)).selected_items = [] ∧
      (step cam st (.up u)).selected = none) ∧
    (∀ (it : Item) (bb : BBox Item) rest,
      query_point st.layers st.mouse_position = (it, bb) :: rest →
      bb.context = some it →
      (step cam st (.up u)).selected_items = [it] ∧
      (step cam st (.up u)).selected = some bb ∧
      (step cam st (.up u)).events
        = ⟨some it, Option.bind st.selected BBox.context⟩ :: st.events) := by
  constructor
  · intro hq
    show (on_mouse_up cam st u).selected_items = [] ∧
      (on_mouse_up cam st u).selected = none
    unfold on_mouse_up
    simp only [hdown]
    rw [if_pos hle, hq]
    exact ⟨rfl, rfl⟩
  · intro it bb rest hq hctx
    show (on_mouse_up cam st u).selected_items = [it] ∧
      (on_mouse_up cam st u).selected = some bb ∧
      (on_mouse_up cam st u).events = _
    unfold on_mouse_up
    simp only [hdown]
    rw [if_pos hle, hq]
    unfold on_pick select set_selected
    simp only [List.head?_cons, Option.map_some', Option.some_bind, hctx]
    exact ⟨trivial, rfl, trivial⟩

def c8_cam : Camera := ⟨id, id⟩

/-- A viewer whose only item sits on a box around the origin. -/
def c8_state : ViewerState Nat :=
  init_viewer [⟨true, true, [(0, ⟨-1, -1, 1, 1, some 0⟩)]⟩]

/-- C8 counterexample: move to the origin, press, release at (3,0) —
within the click threshold but outside item 0's box.  The code queries at
the stale tracked position (0,0) and selects item 0, although
`query_point` at the release position (3,0) is empty, so the claim
(query at the release position) predicts a cleared selection. -/
theorem c8_counterexample :
    (run c8_cam c8_state
      [PEvent.move (0, 0), PEvent.down (0, 0) false false,
       PEvent.up (3, 0)]).selected_items = [0] ∧
    query_point c8_state.layers ((3 : ℤ), (0 : ℤ)) = [] ∧
    sqDist (3, 0) (c8_cam.w2s (0, 0)) ≤ 25 := by
  exact ⟨by decide, by decide, by decide⟩

/-- The C8 witness state: tracking at the origin over item 0's box. -/
def c8w_state : ViewerState Nat :=
  { c8_state with mouse_down_position := some (0, 0) }

/-- C8 witness: the amended click resolution at a concrete release. -/
theorem c8_witness :
    (step c8_cam c8w_state (.up (3, 0))).selected_items = [0] ∧
    (step c8_cam c8w_state (.up (3, 0))).selected = some ⟨-1, -1, 1, 1, some 0⟩ ∧
    (step c8_cam c8w_state (.up (3, 0))).events
      = ⟨some 0, Option.bind c8w_state.selected BBox.context⟩ :: c8w_state.events :=
  (c8_theorem c8_cam c8w_state (3, 0) (0, 0) rfl (by decide)).2 0
    ⟨-1, -1, 1, 1, some 0⟩ [] (by decide) rfl

/-! ## Clipboard export (`on_copy` in `viewer.ts`) -/

/-- The `skip_types` list from `on_copy`: item variants that are not
valid top-level schematic elements. -/
def skip_types : List String := ["rect", "rectangle", "image", "bitmap"]

/-- A selected node as `on_copy` sees it: the retained token subtree
(`_raw_expr`), and for placed symbols the `lib_id` and the library
symbol's own retained subtree (`item.lib_symbol` present / its
`_raw_expr` present). -/
structure CItem where
  raw_expr : Option SVal
  lib_id : Option String
  lib_symbol_raw : Option (Option SVal)

/-- The diagnostics `on_copy` emits: the per-item skip notice
(`console.log "Skipping …"`) and the final no-serializable-items warning
(`console.warn`). -/
inductive CopyLog where
  | skip_note (t : String)
  | no_serializable
deriving DecidableEq

/-- The accumulator of `on_copy`'s first pass. -/
structure CopyAcc where
  libs : List (String × String)
  schematic_items : List String
  logs : List CopyLog
  symbol_instances : Nat
deriving DecidableEq

/-- One iteration of `on_copy`'s first pass over a selected item. -/
def copy_step (acc : CopyAcc) (it : CItem) : CopyAcc :=
  match it.raw_expr with
  | some (SVal.list (SVal.str s :: rest)) =>
    if skip_types.contains s then
      { acc with logs := acc.logs ++ [CopyLog.skip_note s] }
    else
      let serialized := list_to_string (SVal.list (SVal.str s :: rest)) true
      if s = "symbol" then
        match it.lib_id, it.lib_symbol_raw with
        | some lid, some lsraw =>
          let acc1 :=
            if (acc.libs.find? fun p => decide (p.1 = lid)).isSome then acc
            else
              match lsraw with
              | some lexpr =>
                { acc with libs := acc.libs ++ [(lid, list_to_string lexpr true)] }
              | none => acc
          { acc1 with
            schematic_items := acc1.schematic_items ++ [serialized]
            symbol_instances := acc1.symbol_instances + 1 }
        | _, _ =>
          { acc with schematic_items := acc.schematic_items ++ [serialized] }
      else { acc with schematic_items := acc.schematic_items ++ [serialized] }
  | some (SVal.list (t :: rest)) =>
    { acc with schematic_items :=
        acc.schematic_items ++ [list_to_string (SVal.list (t :: rest)) true] }
  | _ => acc

/-- `Array.join("\n")`. -/
def joinNL : List String → String
  | [] => ""
  | [x] => x
  | x :: xs => x ++ "\n" ++ joinNL xs

/-- `s.replace(/\n/g, "\n  ")`. -/
def indentChars : List Char → List Char
  | [] => []
  | c :: cs => (if c = '\n' then ['\n', ' ', ' '] else [c]) ++ indentChars cs

/-- `"  " + s.replace(/\n/g, "\n  ")`. -/
def indent2 (s : String) : String := "  " ++ ⟨indentChars s.data⟩

/-- The `(lib_symbols …)` block `on_copy` assembles. -/
def lib_block (libs : List (String × String)) : String :=
  "(lib_symbols\n" ++ joinNL (libs.map (fun p => indent2 p.2)) ++ "\n)\n\n"

/-- `on_copy` from `viewer.ts`: empty selection is a no-op; all items
skipped emits a warning and writes nothing; otherwise the optional
library block followed by the newline-joined item expressions is handed
to the clipboard sink (`some text`). -/
def on_copy (items : List CItem) : List CopyLog × Option String :=
  if items.isEmpty then ([], none)
  else
    let acc := items.foldl copy_step ⟨[], [], [], 0⟩
    if acc.libs.isEmpty && acc.schematic_items.isEmpty then
      (acc.logs ++ [CopyLog.no_serializable], none)
    else
      (acc.logs,
        some ((if !acc.libs.isEmpty then lib_block acc.libs else "")
          ++ joinNL acc.schematic_items))

/-- `on_copy` as a method of the viewer: it reads the selection and
never mutates any viewer state. -/
def on_copy_viewer (st : ViewerState CItem) :
    ViewerState CItem × List CopyLog × Option String :=
  (st, on_copy st.selected_items)

/-- The item references the shared library definition `lid` in the sense
of `on_copy`: symbol head, `lib_id = lid`, and a present `lib_symbol`
with a retained subtree. -/
def referencesLib (lid : String) (it : CItem) : Bool :=
  match it.raw_expr, it.lib_id, it.lib_symbol_raw with
  | some (SVal.list (SVal.str "symbol" :: _)), some lid', some (some _) =>
    decide (lid' = lid)
  | _, _, _ => false

def references_shared (it : CItem) : Bool :=
  match it.raw_expr, it.lib_id, it.lib_symbol_raw with
  | some (SVal.list (SVal.str "symbol" :: _)), some _, some (some _) => true
  | _, _, _ => false

/-- The item survives `on_copy`'s skipping (has a retained non-empty list
subtree whose variant is not excluded). -/
def contributes (it : CItem) : Bool :=
  match it.raw_expr with
  | some (SVal.list (SVal.str s :: _)) => !skip_types.contains s
  | some (SVal.list (_ :: _)) => true
  | _ => false

def item_serialized (it : CItem) : String :=
  match it.raw_expr with
  | some (SVal.list (t :: rest)) => list_to_string (SVal.list (t :: rest)) true
  | _ => ""

/-- The skip notice an item produces (only excluded string-headed
variants are logged; items without a retained subtree are skipped
silently). -/
def skip_log (it : CItem) : List CopyLog :=
  match it.raw_expr with
  | some (SVal.list (SVal.str s :: _)) =>
    if skip_types.contains s then [CopyLog.skip_note s] else []
  | _ => []

theorem key_mem_iff_find (libs : List (String × String)) (lid : String) :
    (libs.find? fun p => decide (p.1 = lid)).isSome = true ↔
      lid ∈ libs.map Prod.fst := by
  rw [List.find?_isSome]
  constructor
  · rintro ⟨p, hp, hdec⟩
    rw [decide_eq_true_eq] at hdec
    exact List.mem_map.mpr ⟨p, hp, hdec⟩
  · intro h
    obtain ⟨p, hp, hfst⟩ := List.mem_map.mp h
    exact ⟨p, hp, by rw [decide_eq_true_eq]; exact hfst⟩

/-- Full characterization of one `on_copy` first-pass iteration: how the
item expressions, the diagnostics, and the library-definition keys
evolve. -/
theorem copy_step_char (acc : CopyAcc) (it : CItem) :
    (copy_step acc it).schematic_items
        = acc.schematic_items ++ (if contributes it then [item_serialized it] else []) ∧
    (copy_step acc it).logs = acc.logs ++ skip_log it ∧
    (∀ lid, lid ∈ (copy_step acc it).libs.map Prod.fst ↔
      lid ∈ acc.libs.map Prod.fst ∨ referencesLib lid it = true) ∧
    ((acc.libs.map Prod.fst).Nodup → ((copy_step acc it).libs.map Prod.fst).Nodup) := by
  obtain ⟨raw, lib, ls⟩ := it
  cases raw with
  | none => simp [copy_step, contributes, skip_log, referencesLib]
  | some v =>
    cases v with
    | str s => simp [copy_step, contributes, skip_log, referencesLib]
    | num n => simp [copy_step, contributes, skip_log, referencesLib]
    | list xs =>
      cases xs with
      | nil => simp [copy_step, contributes, skip_log, referencesLib]
      | cons t rest =>
        cases t with
        | num n => simp [copy_step, contributes, skip_log, referencesLib, item_serialized]
        | list ys => simp [copy_step, contributes, skip_log, referencesLib, item_serialized]
        | str s =>
          by_cases hskip : s ∈ skip_types
          · have hs : s = "rect" ∨ s = "rectangle" ∨ s = "image" ∨ s = "bitmap" := by
              simpa [skip_types] using hskip
            rcases hs with rfl | rfl | rfl | rfl <;>
              simp [copy_step, contributes, skip_log, referencesLib, skip_types]
          · by_cases hsym : s = "symbol"
            · subst hsym
              cases lib with
              | none =>
                simp [copy_step, contributes, skip_log, referencesLib,
                  item_serialized, hskip]
              | some lid' =>
                cases ls with
                | none =>
                  simp [copy_step, contributes, skip_log, referencesLib,
                    item_serialized, hskip]
                | some lsraw =>
                  by_cases hfind : ((acc.libs.find? fun p => decide (p.1 = lid')).isSome) = true
                  · refine ⟨?_, ?_, ?_, ?_⟩
                    · simp [copy_step, contributes, item_serialized, hskip, hfind]
                    · simp [copy_step, skip_log, hskip, hfind]
                    · intro lid
                      have hkey := (key_mem_iff_find acc.libs lid').mp hfind
                      cases lsraw with
                      | none =>
                        simp [copy_step, hskip, hfind, referencesLib]
                      | some lexpr =>
                        have hstep2 : (copy_step acc
                            ⟨some (SVal.list (SVal.str "symbol" :: rest)),
                              some lid', some (some lexpr)⟩).libs = acc.libs := by
                          simp [copy_step, hskip, hfind]
                        rw [hstep2]
                        simp only [referencesLib, decide_eq_true_eq]
                        constructor
                        · exact Or.inl
                        · rintro (h | h)
                          · exact h
                          · rw [← h]; exact hkey
                    · intro h
                      simpa [copy_step, hskip, hfind] using h
                  · have hfind' : (acc.libs.find? fun p => decide (p.1 = lid')).isSome = false := by
                      cases hx : (acc.libs.find? fun p => decide (p.1 = lid')).isSome
                      · rfl
                      · exact absurd hx hfind
                    have hnomem : lid' ∉ acc.libs.map Prod.fst := by
                      intro hmem
                      rw [← key_mem_iff_find] at hmem
                      rw [hmem] at hfind'
                      cases hfind'
                    cases lsraw with
                    | none =>
                      refine ⟨?_, ?_, ?_, ?_⟩
                      · simp [copy_step, contributes, item_serialized, hskip, hfind']
                      · simp [copy_step, skip_log, hskip, hfind']
                      · intro lid
                        simp [copy_step, hskip, hfind', referencesLib]
                      · intro h
                        simpa [copy_step, hskip, hfind'] using h
                    | some lexpr =>
                      have hstep : (copy_step acc
                          ⟨some (SVal.list (SVal.str "symbol" :: rest)),
                            some lid', some (some lexpr)⟩).libs
                          = acc.libs ++ [(lid', list_to_string lexpr true)] := by
                        simp [copy_step, hskip, hfind']
                      refine ⟨?_, ?_, ?_, ?_⟩
                      · simp [copy_step, contributes, item_serialized, hskip, hfind']
                      · simp [copy_step, skip_log, hskip, hfind']
                      · intro lid
                        rw [hstep]
                        constructor
                        · intro hmem
                          rw [List.map_append, List.mem_append] at hmem
                          rcases hmem with h1 | h1
                          · exact Or.inl h1
                          · right
                            simp only [List.map_cons, List.map_nil,
                              List.mem_singleton] at h1
                            simp [referencesLib, h1]
                        · rintro (h1 | h1)
                          · rw [List.map_append, List.mem_append]
                            exact Or.inl h1
                          · rw [List.map_append, List.mem_append]
                            right
                            simp only [referencesLib, decide_eq_true_eq] at h1
                            simp [h1]
                      · intro h
                        rw [hstep]
                        simp only [List.map_append, List.map_cons, List.map_nil]
                        rw [List.nodup_append]
                        refine ⟨h, List.nodup_singleton _, ?_⟩
                        intro a ha hb
                        rw [List.mem_singleton] at hb
                        subst hb
                        exact hnomem ha
            · refine ⟨?_, ?_, ?_, ?_⟩
              · simp [copy_step, contributes, item_serialized, hskip, hsym]
              · simp [copy_step, skip_log, hskip, hsym]
              · intro lid
                simp [copy_step, hskip, hsym, referencesLib]
              · intro h
                simpa [copy_step, hskip, hsym] using h

/-- The item expressions accumulate across the whole first pass: every
surviving item appends its serialization in order. -/
theorem foldl_copy_schem (items : List CItem) (acc : CopyAcc) :
    (items.foldl copy_step acc).schematic_items
      = acc.schematic_items
          ++ (items.filter (fun it => contributes it)).map item_serialized := by
  induction items generalizing acc with
  | nil => simp
  | cons it rest ih =>
    rw [List.foldl_cons, ih, (copy_step_char acc it).1]
    by_cases hc : contributes it = true
    · simp [hc, List.filter_cons]
    · simp only [Bool.not_eq_true] at hc
      simp [hc, List.filter_cons]

/-- A library key is present after the first pass exactly when some
selected item references that shared definition. -/
theorem foldl_copy_keys (items : List CItem) (acc : CopyAcc) (lid : String) :
    lid ∈ (items.foldl copy_step acc).libs.map Prod.fst ↔
      lid ∈ acc.libs.map Prod.fst ∨ ∃ it ∈ items, referencesLib lid it = true := by
  induction items generalizing acc with
  | nil => simp
  | cons it rest ih =>
    rw [List.foldl_cons, ih, (copy_step_char acc it).2.2.1]
    simp only [List.mem_cons]
    constructor
    · rintro ((h | h) | ⟨x, hx, hr⟩)
      · exact Or.inl h
      · exact Or.inr ⟨it, Or.inl rfl, h⟩
      · exact Or.inr ⟨x, Or.inr hx, hr⟩
    · rintro (h | ⟨x, hx | hx, hr⟩)
      · exact Or.inl (Or.inl h)
      · exact Or.inl (Or.inr (hx ▸ hr))
      · exact Or.inr ⟨x, hx, hr⟩

/-- The first pass never duplicates a library key. -/
theorem foldl_copy_nodup (items : List CItem) (acc : CopyAcc)
    (h : (acc.libs.map Prod.fst).Nodup) :
    ((items.foldl copy_step acc).libs.map Prod.fst).Nodup := by
  induction items generalizing acc with
  | nil => exact h
  | cons it rest ih =>
    rw [List.foldl_cons]
    exact ih _ ((copy_step_char acc it).2.2.2 h)

/-- An item references some shared definition exactly when it has the
placed-symbol shape `on_copy` recognises. -/
theorem references_shared_iff (it : CItem) :
    references_shared it = true ↔ ∃ lid, referencesLib lid it = true := by
  obtain ⟨raw, lib, ls⟩ := it
  cases raw with
  | none => simp [references_shared, referencesLib]
  | some v =>
    cases v with
    | str s => simp [references_shared, referencesLib]
    | num n => simp [references_shared, referencesLib]
    | list xs =>
      cases xs with
      | nil => simp [references_shared, referencesLib]
      | cons t rest =>
        cases t with
        | num n => simp [references_shared, referencesLib]
        | list ys => simp [references_shared, referencesLib]
        | str s =>
          by_cases hsym : s = "symbol"
          · subst hsym
            cases lib with
            | none => simp [references_shared, referencesLib]
            | some lid' =>
              cases ls with
              | none => simp [references_shared, referencesLib]
              | some lsraw =>
                cases lsraw with
                | none => simp [references_shared, referencesLib]
                | some lexpr =>
                  constructor
                  · intro _
                    exact ⟨lid', by simp [referencesLib]⟩
                  · intro _
                    rfl
          · simp [references_shared, referencesLib, hsym]

/-- C3: whenever `on_copy` writes text to the clipboard, each referenced
shared library symbol definition appears exactly once (the key list is
duplicate-free, and a key is present exactly when some selected item
references it); the single leading `(lib_symbols …)` block is present
exactly when at least one exported node references a shared definition;
and the text is that optional block followed by the individual item
expressions joined by newlines, one expression per surviving top-level
list, in selection order. -/
theorem c3_theorem (items : List CItem) (t : String) (acc : CopyAcc)
    (hacc : acc = items.foldl copy_step ⟨[], [], [], 0⟩)
    (h : (on_copy items).2 = some t) :
    (acc.libs.map Prod.fst).Nodup ∧
    (∀ lid, lid ∈ acc.libs.map Prod.fst ↔
      ∃ it ∈ items, referencesLib lid it = true) ∧
    (acc.libs ≠ [] ↔ ∃ it ∈ items, references_shared it = true) ∧
    acc.schematic_items
      = (items.filter (fun it => contributes it)).map item_serialized ∧
    t = (if acc.libs.isEmpty then "" else lib_block acc.libs)
          ++ joinNL acc.schematic_items := by
  subst hacc
  refine ⟨foldl_copy_nodup items _ (by simp), ?_, ?_, ?_, ?_⟩
  · intro lid
    rw [foldl_copy_keys]
    simp
  · constructor
    · intro hne
      obtain ⟨p, ps, hl⟩ := List.exists_cons_of_ne_nil hne
      have hmem : p.1 ∈ (items.foldl copy_step ⟨[], [], [], 0⟩).libs.map Prod.fst := by
        rw [hl]; simp
      rw [foldl_copy_keys] at hmem
      rcases hmem with hmem | ⟨it, hit, hr⟩
      · simp at hmem
      · exact ⟨it, hit, (references_shared_iff it).mpr ⟨p.1, hr⟩⟩
    · rintro ⟨it, hit, hr⟩
      obtain ⟨lid, hlid⟩ := (references_shared_iff it).mp hr
      have hmem : lid ∈ (items.foldl copy_step ⟨[], [], [], 0⟩).libs.map Prod.fst := by
        rw [foldl_copy_keys]
        exact Or.inr ⟨it, hit, hlid⟩
      intro hnil
      rw [hnil] at hmem
      simp at hmem
  · rw [foldl_copy_schem]
    rfl
  · simp only [on_copy] at h
    split at h
    · cases h
    · split at h
      · cases h
      · rw [Option.some_inj] at h
        rw [← h]
        by_cases hl : (items.foldl copy_step ⟨[], [], [], 0⟩).libs.isEmpty = true
        · simp [hl]
        · simp only [Bool.not_eq_true] at hl
          simp [hl]

/-- The C3 witness selection: two placed instances of the same library
symbol plus a wire. -/
def c3_items : List CItem :=
  [⟨some (SVal.list [SVal.str "symbol", SVal.str "R"]), some "R",
      some (some (SVal.list [SVal.str "symbol", SVal.str "R"]))⟩,
    ⟨some (SVal.list [SVal.str "symbol", SVal.str "R"]), some "R",
      some (some (SVal.list [SVal.str "symbol", SVal.str "R"]))⟩,
    ⟨some (SVal.list [SVal.str "wire"]), none, none⟩]

/-- C3 witness: on the concrete selection the exported text has one
`lib_symbols` entry for the twice-placed symbol, then the three item
expressions. -/
theorem c3_witness :
    ((c3_items.foldl copy_step ⟨[], [], [], 0⟩).libs.map Prod.fst).Nodup ∧
    (∀ lid,
      lid ∈ (c3_items.foldl copy_step ⟨[], [], [], 0⟩).libs.map Prod.fst ↔
        ∃ it ∈ c3_items, referencesLib lid it = true) ∧
    ((c3_items.foldl copy_step ⟨[], [], [], 0⟩).libs ≠ [] ↔
      ∃ it ∈ c3_items, references_shared it = true) ∧
    (c3_items.foldl copy_step ⟨[], [], [], 0⟩).schematic_items
      = (c3_items.filter (fun it => contributes it)).map item_serialized ∧
    "(lib_symbols\n  (symbol \"R\")\n)\n\n(symbol \"R\")\n(symbol \"R\")\n(wire)"
      = (if (c3_items.foldl copy_step ⟨[], [], [], 0⟩).libs.isEmpty then ""
          else lib_block (c3_items.foldl copy_step ⟨[], [], [], 0⟩).libs)
        ++ joinNL (c3_items.foldl copy_step ⟨[], [], [], 0⟩).schematic_items :=
  c3_theorem c3_items
    "(lib_symbols\n  (symbol \"R\")\n)\n\n(symbol \"R\")\n(symbol \"R\")\n(wire)"
    (c3_items.foldl copy_step ⟨[], [], [], 0⟩) rfl rfl

/-- C7, amended: a selected node with no retained token subtree is
skipped silently — the first pass leaves the accumulator untouched and
emits no diagnostic, and the export of the remaining nodes completes as
if the node were absent; a node whose variant is excluded is skipped
with a per-item skip notice (not a partial-export warning) and
contributes no expression; in neither case does the export abort. -/
theorem c7_theorem (acc : CopyAcc) (it : CItem) (pre post : List CItem) :
    (it.raw_expr = none →
      skip_log it = [] ∧
      (pre ++ it :: post).foldl copy_step acc
        = (pre ++ post).foldl copy_step acc) ∧
    (∀ s rest, it.raw_expr = some (SVal.list (SVal.str s :: rest)) →
      s ∈ skip_types →
      copy_step acc it = { acc with logs := acc.logs ++ [CopyLog.skip_note s] } ∧
      contributes it = false) := by
  constructor
  · intro hraw
    obtain ⟨raw, lib, ls⟩ := it
    simp only at hraw
    subst hraw
    refine ⟨rfl, ?_⟩
    rw [List.foldl_append, List.foldl_append, List.foldl_cons]
    have hstep : copy_step (pre.foldl copy_step acc) ⟨none, lib, ls⟩
        = pre.foldl copy_step acc := rfl
    rw [hstep]
  · intro s rest hraw hskip
    obtain ⟨raw, lib, ls⟩ := it
    simp only at hraw
    subst hraw
    constructor
    · simp [copy_step, hskip]
    · simp [contributes, hskip]

/-- The C7 counterexample selection: a node with no retained subtree
followed by a wire. -/
def c7_items : List CItem :=
  [⟨none, none, none⟩, ⟨some (SVal.list [SVal.str "wire"]), none, none⟩]

/-- C7 counterexample: the node without a retained subtree is dropped
with NO diagnostic of any kind — the log is empty and the clipboard
still receives the remaining item — contradicting the claim that such a
skip reports a partial-export warning. -/
theorem c7_counterexample :
    (on_copy c7_items).1 = [] ∧
    (on_copy c7_items).2 = some "(wire)" ∧
    ¬ CopyLog.no_serializable ∈ (on_copy c7_items).1 := by
  exact ⟨rfl, rfl, by decide⟩

/-- C7 witness: the amended behavior at a concrete selection — the
subtree-less node skips silently and the fold equals the fold without
it; a `rect` node is logged and excluded. -/
theorem c7_witness :
    (skip_log (⟨none, none, none⟩ : CItem) = [] ∧
      ([(⟨none, none, none⟩ : CItem)]
          ++ (⟨none, none, none⟩ : CItem)
            :: [(⟨some (SVal.list [SVal.str "wire"]), none, none⟩ : CItem)]).foldl
          copy_step (⟨[], [], [], 0⟩ : CopyAcc)
        = ([(⟨none, none, none⟩ : CItem)]
            ++ [(⟨some (SVal.list [SVal.str "wire"]), none, none⟩ : CItem)]).foldl
            copy_step (⟨[], [], [], 0⟩ : CopyAcc)) ∧
    (copy_step (⟨[], [], [], 0⟩ : CopyAcc)
        (⟨some (SVal.list [SVal.str "rect"]), none, none⟩ : CItem)
      = { libs := [], schematic_items := [],
          logs := [CopyLog.skip_note "rect"], symbol_instances := 0 } ∧
      contributes (⟨some (SVal.list [SVal.str "rect"]), none, none⟩ : CItem) = false) :=
  ⟨(c7_theorem (⟨[], [], [], 0⟩ : CopyAcc) ⟨none, none, none⟩
      [⟨none, none, none⟩]
      [(⟨some (SVal.list [SVal.str "wire"]), none, none⟩ : CItem)]).1 rfl,
    (c7_theorem (⟨[], [], [], 0⟩ : CopyAcc)
      (⟨some (SVal.list [SVal.str "rect"]), none, none⟩ : CItem) [] []).2
      "rect" [] rfl (by decide)⟩

/-- C9: invoking copy never mutates viewer state; with an empty
selection no clipboard write is performed; and when every selected item
is skipped as unserializable (contributes nothing and references no
shared definition) no clipboard write is attempted either. -/
theorem c9_theorem (st : ViewerState CItem) (items : List CItem) :
    (on_copy_viewer st).1 = st ∧
    (st.selected_items = [] → (on_copy_viewer st).2.2 = none) ∧
    ((∀ it ∈ items, contributes it = false ∧ references_shared it = false) →
      (on_copy items).2 = none) := by
  refine ⟨rfl, ?_, ?_⟩
  · intro hsel
    simp only [on_copy_viewer, on_copy, hsel]
    rfl
  · intro hall
    cases items with
    | nil => rfl
    | cons it rest =>
      have hschem : ((it :: rest).foldl copy_step ⟨[], [], [], 0⟩).schematic_items
          = [] := by
        rw [foldl_copy_schem]
        have hfil : (it :: rest).filter (fun x => contributes x) = [] := by
          rw [List.filter_eq_nil]
          intro a ha
          simp [(hall a ha).1]
        rw [hfil]
        rfl
      have hlibs : ((it :: rest).foldl copy_step ⟨[], [], [], 0⟩).libs = [] := by
        rw [List.eq_nil_iff_forall_not_mem]
        intro p hp
        have hmem : p.1 ∈ ((it :: rest).foldl copy_step
            ⟨[], [], [], 0⟩).libs.map Prod.fst := List.mem_map.mpr ⟨p, hp, rfl⟩
        rw [foldl_copy_keys] at hmem
        rcases hmem with hmem | ⟨x, hx, hr⟩
        · simp at hmem
        · have := (references_shared_iff x).mpr ⟨p.1, hr⟩
          rw [(hall x hx).2] at this
          cases this
      simp only [on_copy, hschem, hlibs]
      rfl

/-- C9 witness: an empty selection and an all-unserializable selection,
concretely. -/
theorem c9_witness :
    (on_copy_viewer (init_viewer [])).1 = init_viewer [] ∧
    (on_copy_viewer (init_viewer [])).2.2 = none ∧
    (on_copy [(⟨none, none, none⟩ : CItem),
        (⟨some (SVal.list [SVal.str "rect", SVal.num 1]), none, none⟩ : CItem)]).2
      = none := by
  obtain ⟨h1, h2, h3⟩ := c9_theorem (init_viewer [])
    [(⟨none, none, none⟩ : CItem),
      (⟨some (SVal.list [SVal.str "rect", SVal.num 1]), none, none⟩ : CItem)]
  exact ⟨h1, h2 rfl, h3 (by decide)⟩
